import Mathlib

/-!
Verification of the classroom-seater seat-assignment engine.

The definitions below are a shallow embedding of the TypeScript source:

* `client/src/lib/seating-algorithms.ts` — arrangement strategies,
  `generateSeatingChart`, `validateSeatingArrangement`, adjacency, scoring;
* the seating-chart grid component — `getSeatCount` and
  `generateLayoutPositions` (the seven room geometries).

JavaScript arrays become `List`, `string` becomes `String`, numbers become
`Nat`/`Int`/`ℚ` where the code only ever holds integers or exact ratios, and
`ℝ` for the trigonometric layout geometry.  `Array.prototype.includes`,
`Set.has` and `Map.get` are rendered as list membership / association-list
lookup.  `Math.random()` is abstracted as an injected entropy oracle
`rand : Nat → Nat`.
-/

/-- A student record as selected from the `students` table of
`shared/schema.ts` (`Student = typeof students.$inferSelect`); every column
is non-nullable there, so every field is total here. -/
structure Student where
  id : String
  name : String
  primaryLanguage : String
  secondaryLanguages : List String
  skillLevel : String
  worksWellWith : List String
  avoidPairing : List String
  notes : String
deriving DecidableEq

/-- `SeatAssignment` from `seating-algorithms.ts`: a 0-based position and an
optional assigned student id (`null` = empty seat). -/
structure SeatAssignment where
  position : Nat
  studentId : Option String
deriving DecidableEq

/-- JavaScript `String.prototype.toLowerCase`, rendered characterwise so that
it evaluates by kernel reduction. -/
def jsToLower (s : String) : String := ⟨s.data.map Char.toLower⟩

/-- `getSeatCount(layoutType, studentCount)` from the seating-chart grid
component.  For `groups` it returns `Math.ceil(studentCount / 4) * 4`
(`Math.ceil (n / 4)` on a natural is `(n + 3) / 4`); for the other layouts it
returns `Math.min(studentCount, maxForLayout)` where the per-layout ceilings
come from the `maxSeats` table and `|| 24` supplies the fallback for
unrecognized kinds. -/
def getSeatCount (layoutType : String) (studentCount : Nat) : Nat :=
  if layoutType = "groups" then
    ((studentCount + 3) / 4) * 4
  else
    let maxForLayout : Nat :=
      if layoutType = "traditional-rows" then 30
      else if layoutType = "stadium" then 28
      else if layoutType = "horseshoe" then 20
      else if layoutType = "double-horseshoe" then 32
      else if layoutType = "circle" then 16
      else if layoutType = "pairs" then 20
      else 24
    min studentCount maxForLayout

/-- `hasAvoidConflict(student1, student2)` from `seating-algorithms.ts`:
true when either student's lowercased avoid-pairing list contains the other
student's lowercased name. -/
def hasAvoidConflict (student1 student2 : Student) : Bool :=
  let student1Avoids := student1.avoidPairing.map jsToLower
  let student2Avoids := student2.avoidPairing.map jsToLower
  decide (jsToLower student2.name ∈ student1Avoids) ||
    decide (jsToLower student1.name ∈ student2Avoids)

/-- `canPlaceStudent(student, recentlyPlaced)`: no conflict with any of the
recently placed students. -/
def canPlaceStudent (student : Student) (recentlyPlaced : List Student) : Bool :=
  !(recentlyPlaced.any fun placedStudent => hasAvoidConflict student placedStudent)

/-- The `studentMap` built by `new Map(students.map(s => [s.id, s]))`:
repeated `Map.set` makes a later entry with the same id win, so lookup
returns the last matching student. -/
def studentMapGet (students : List Student) (id : String) : Option Student :=
  students.reverse.find? fun s => decide (s.id = id)

/-- `Math.ceil(Math.sqrt(n))` for a natural `n`: the least `k` with
`n ≤ k * k` (exact for every integer the validator can meet, since IEEE
sqrt is correctly rounded); rendered as a bounded search so that it
evaluates by plain kernel reduction. -/
def jsCeilSqrt (n : Nat) : Nat :=
  ((List.range (n + 1)).find? fun k => decide (n ≤ k * k)).getD n

/-- `getAdjacentPositions(position, totalSeats, layoutType)` from
`seating-algorithms.ts`.  Arithmetic is on `Int` exactly as the JS computes
it; the conditional pushes become singleton appends, and the final filter
keeps indices inside `[0, totalSeats)`, returned as `Nat`. -/
def getAdjacentPositions (position totalSeats : Nat) (layoutType : Option String) : List Nat :=
  let p : Int := position
  let n : Int := totalSeats
  let adjacent : List Int :=
    if layoutType = some "traditional-rows" then
      -- 6 columns, 5 rows - check immediate neighbors
      let cols : Int := 6
      let row := p / cols
      let col := p % cols
      (if col > 0 then [p - 1] else []) ++
      (if col < cols - 1 ∧ p + 1 < n then [p + 1] else []) ++
      (if row > 0 then [p - cols] else []) ++
      (if p + cols < n then [p + cols] else [])
    else if layoutType = some "horseshoe" then
      let cols : Int := 8
      let col := p % cols
      let row := p / cols
      (if col > 0 then [p - 1] else []) ++
      (if col < cols - 1 ∧ p + 1 < n then [p + 1] else []) ++
      -- front row of horseshoe: students can see each other across
      (if row = 0 ∧ col < 3 ∧ p + (6 - 2 * col) < n then [p + (6 - 2 * col)] else [])
    else
      -- default grid adjacency
      let cols : Int := jsCeilSqrt totalSeats
      let row := p / cols
      let col := p % cols
      (if col > 0 then [p - 1] else []) ++
      (if col < cols - 1 ∧ p + 1 < n then [p + 1] else []) ++
      (if row > 0 then [p - cols] else []) ++
      (if p + cols < n then [p + cols] else [])
  (adjacent.filter fun pos => decide (0 ≤ pos) && decide (pos < n)).map Int.toNat

/-- Result record of `validateSeatingArrangement`. -/
structure ValidationResult where
  isValid : Bool
  violations : List String
deriving DecidableEq

/-- The message pushed for one detected avoid-pairing violation. -/
def violationMessage (student adjacentStudent : Student) : String :=
  student.name ++ " should not sit next to " ++ adjacentStudent.name

/-- Resolve the student occupying seat index `k`: read `seats[k].studentId`
and look it up in the student map; `none` when the seat is empty or the id
matches nobody in the roster. -/
def seatStudent (seats : List SeatAssignment) (students : List Student) (k : Nat) :
    Option Student :=
  match seats[k]? with
  | none => none
  | some seat =>
    match seat.studentId with
    | none => none
    | some sid => studentMapGet students sid

/-- Body of the validator's inner `forEach`: the messages pushed while the
focal `student` is checked against one adjacent position.  The early
`return`s of the source become the `none` branches. -/
def adjacentViolation (seats : List SeatAssignment) (students : List Student)
    (student : Student) (adjPos : Nat) : List String :=
  match seats[adjPos]? with
  | none => []
  | some adjacentSeat =>
    match adjacentSeat.studentId with
    | none => []
    | some adjSid =>
      match studentMapGet students adjSid with
      | none => []
      | some adjacentStudent =>
        if student.avoidPairing.any
            (fun nm => decide (jsToLower nm = jsToLower adjacentStudent.name)) then
          [violationMessage student adjacentStudent]
        else []

/-- Body of the validator's outer `forEach`: every message pushed while
visiting seat `index`. -/
def seatViolations (seats : List SeatAssignment) (students : List Student)
    (layoutType : Option String) (index : Nat) : List String :=
  match seats[index]? with
  | none => []
  | some seat =>
    match seat.studentId with
    | none => []
    | some sid =>
      match studentMapGet students sid with
      | none => []
      | some student =>
        (getAdjacentPositions index seats.length layoutType).flatMap
          (adjacentViolation seats students student)

/-- `validateSeatingArrangement(seats, students, layoutType?)` from
`seating-algorithms.ts`: the `seats.forEach` with early `return`s is
rendered as a `flatMap` over seat indices producing the pushed messages in
order. -/
def validateSeatingArrangement (seats : List SeatAssignment) (students : List Student)
    (layoutType : Option String) : ValidationResult :=
  let violations :=
    (List.range seats.length).flatMap (seatViolations seats students layoutType)
  { isValid := violations.length == 0, violations := violations }

/-- Does the focal student at seat `i` list the student at seat `j` in its
avoid-pairing list (case-insensitively)?  False unless both seats resolve
to roster students.  This is the direction the source actually checks. -/
def focalAvoidsAdjacent (seats : List SeatAssignment) (students : List Student)
    (i j : Nat) : Bool :=
  match seatStudent seats students i, seatStudent seats students j with
  | some s, some t => s.avoidPairing.any fun nm => decide (jsToLower nm = jsToLower t.name)
  | _, _ => false

/-- Either-direction conflict condition, as worded by claim C4: either
occupant's avoid-pairing list names the other. -/
def eitherAvoidsAdjacent (seats : List SeatAssignment) (students : List Student)
    (i j : Nat) : Bool :=
  focalAvoidsAdjacent seats students i j || focalAvoidsAdjacent seats students j i

/-- Modelled from the spec wording of C4: the ordered pairs (i, j) with `j`
adjacent to `i` whose occupants satisfy `cond`. -/
def adjacentPairsWhere (seats : List SeatAssignment) (layoutType : Option String)
    (cond : Nat → Nat → Bool) : List (Nat × Nat) :=
  (List.range seats.length).flatMap fun i =>
    ((getAdjacentPositions i seats.length layoutType).filter (cond i)).map fun j => (i, j)

/-- The ordered adjacent pairs the source emits a violation for. -/
def specViolationPairs (seats : List SeatAssignment) (students : List Student)
    (layoutType : Option String) : List (Nat × Nat) :=
  adjacentPairsWhere seats layoutType (focalAvoidsAdjacent seats students)

/-- The ordered adjacent pairs claim C4 predicts a violation for. -/
def claimViolationPairs (seats : List SeatAssignment) (students : List Student)
    (layoutType : Option String) : List (Nat × Nat) :=
  adjacentPairsWhere seats layoutType (eitherAvoidsAdjacent seats students)

/-- The violation message attached to an ordered pair of seat indices. -/
def pairMessage (seats : List SeatAssignment) (students : List Student)
    (ij : Nat × Nat) : String :=
  match seatStudent seats students ij.1, seatStudent seats students ij.2 with
  | some s, some t => violationMessage s t
  | _, _ => ""

/-- Fixture for C4: Alice avoid-pairs Bob, Bob avoid-pairs nobody. -/
def c4exStudents : List Student :=
  [{ id := "a", name := "Alice", primaryLanguage := "en", secondaryLanguages := [],
     skillLevel := "beginner", worksWellWith := [], avoidPairing := ["Bob"], notes := "" },
   { id := "b", name := "Bob", primaryLanguage := "en", secondaryLanguages := [],
     skillLevel := "beginner", worksWellWith := [], avoidPairing := [], notes := "" }]

/-- Fixture for C4: Alice and Bob in two mutually adjacent seats. -/
def c4exSeats : List SeatAssignment := [⟨0, some "a"⟩, ⟨1, some "b"⟩]

/-- A seat with its studentId nulled out whenever it is absent or resolves
to no student of the roster. -/
def nullifyUnresolved (students : List Student) (seat : SeatAssignment) : SeatAssignment :=
  match seat.studentId with
  | none => seat
  | some sid =>
    if (studentMapGet students sid).isSome then seat else { seat with studentId := none }

/-- JS `array.slice(-k)`: the last `k` elements (the whole array when it is
shorter than `k`). -/
def jsSliceNeg (k : Nat) (l : List Student) : List Student := l.drop (l.length - k)

/-- `if (group[i] && canPlaceStudent(group[i], mixed)) mixed.push(group[i])`:
one conditional push of the round-robin loop of
`generateMixedAbilityArrangement`. -/
def pushIfPlaceable (o : Option Student) (mixed : List Student) : List Student :=
  match o with
  | some s => if canPlaceStudent s mixed then mixed ++ [s] else mixed
  | none => mixed

/-- The round-robin phase of `generateMixedAbilityArrangement`: for each
index below the longest bucket, try advanced, then beginners, then
intermediate. -/
def mixedPhaseOne (beginners intermediate advanced : List Student) : List Student :=
  let maxLength := max (max beginners.length intermediate.length) advanced.length
  (List.range maxLength).foldl
    (fun mixed i =>
      pushIfPlaceable intermediate[i]? (pushIfPlaceable beginners[i]? (pushIfPlaceable advanced[i]? mixed)))
    []

/-- The clean-up phase of `generateMixedAbilityArrangement`: walk
`allGroups` and append every student not yet in `mixed`
(`mixed.includes(student)` is value equality here, bit-for-bit record
identity). -/
def addMissing (mixed allGroups : List Student) : List Student :=
  allGroups.foldl (fun mixed student => if student ∈ mixed then mixed else mixed ++ [student])
    mixed

/-- `generateMixedAbilityArrangement` from `seating-algorithms.ts`. -/
def generateMixedAbilityArrangement (students : List Student) : List Student :=
  let beginners := students.filter fun s => decide (s.skillLevel = "beginner")
  let intermediate := students.filter fun s => decide (s.skillLevel = "intermediate")
  let advanced := students.filter fun s => decide (s.skillLevel = "advanced")
  addMissing (mixedPhaseOne beginners intermediate advanced)
    (beginners ++ intermediate ++ advanced)

/-- `generateSkillClusteringArrangement`: cluster the three skill buckets. -/
def generateSkillClusteringArrangement (students : List Student) : List Student :=
  let beginners := students.filter fun s => decide (s.skillLevel = "beginner")
  let intermediate := students.filter fun s => decide (s.skillLevel = "intermediate")
  let advanced := students.filter fun s => decide (s.skillLevel = "advanced")
  beginners ++ intermediate ++ advanced

/-- Append `student` to the bucket of `language`, creating the bucket at the
end on first use (a JS `Map` iterates in key-insertion order, and
`languageGroups.get(language).push(student)` appends). -/
def addToLanguageGroup (groups : List (String × List Student)) (language : String)
    (student : Student) : List (String × List Student) :=
  if groups.any (fun g => decide (g.1 = language)) then
    groups.map fun g => if g.1 = language then (g.1, g.2 ++ [student]) else g
  else
    groups ++ [(language, [student])]

/-- The `languageGroups` map of `generateLanguageSupportArrangement`: every
student is filed under its primary and all secondary languages. -/
def languageGroups (students : List Student) : List (String × List Student) :=
  students.foldl
    (fun groups student =>
      (student.primaryLanguage :: student.secondaryLanguages).foldl
        (fun gs language => addToLanguageGroup gs language student) groups)
    []

/-- Phase one of `generateLanguageSupportArrangement`: for every language
spoken by more than one student, place its not-yet-used speakers whose
placement does not conflict with the last two placed students.  The pair is
(`arranged`, `used`). -/
def languagePhaseOne (students : List Student) : List Student × List String :=
  (languageGroups students).foldl
    (fun st g =>
      if 1 < g.2.length then
        g.2.foldl
          (fun st student =>
            if student.id ∉ st.2 ∧ canPlaceStudent student (jsSliceNeg 2 st.1) = true then
              (st.1 ++ [student], st.2 ++ [student.id])
            else st)
          st
      else st)
    ([], [])

/-- The shared clean-up loop of `generateLanguageSupportArrangement`
(`back = 2`, its `splice(Math.max(0, length - 2), 0, student)`) and
`generateCollaborativeArrangement` (`back = 1`, its
`splice(-1, 0, student)`): walk all students, skip the used ones, append
when the last two placed students pose no conflict, otherwise insert
`back` positions before the tail. -/
def placeRemaining (students : List Student) (used : List String) (back : Nat)
    (arranged : List Student) : List Student :=
  students.foldl
    (fun arranged student =>
      if student.id ∈ used then arranged
      else if canPlaceStudent student (jsSliceNeg 2 arranged) then arranged ++ [student]
      else arranged.insertIdx (arranged.length - back) student)
    arranged

/-- `generateLanguageSupportArrangement` from `seating-algorithms.ts`. -/
def generateLanguageSupportArrangement (students : List Student) : List Student :=
  let st := languagePhaseOne students
  placeRemaining students st.2 2 st.1

/-- Phase one of `generateCollaborativeArrangement`: place each student who
declares collaboration preferences, immediately followed by every named
partner that is unused and conflict-free. -/
def collaborativePhaseOne (students : List Student) : List Student × List String :=
  students.foldl
    (fun st student =>
      if student.id ∈ st.2 then st
      else if 0 < student.worksWellWith.length then
        let st1 := (st.1 ++ [student], st.2 ++ [student.id])
        student.worksWellWith.foldl
          (fun st partnerName =>
            match students.find? (fun s =>
                decide (jsToLower s.name = jsToLower partnerName) &&
                  !(decide (s.id ∈ st.2))) with
            | some partner =>
              if hasAvoidConflict student partner = false then
                (st.1 ++ [partner], st.2 ++ [partner.id])
              else st
            | none => st)
          st1
      else st)
    ([], [])

/-- `generateCollaborativeArrangement` from `seating-algorithms.ts`. -/
def generateCollaborativeArrangement (students : List Student) : List Student :=
  let st := collaborativePhaseOne students
  placeRemaining students st.2 1 st.1

/-- One JS destructuring swap `[a[i], a[j]] = [a[j], a[i]]`. -/
def swapIdx (l : List Student) (i j : Nat) : List Student :=
  match l[i]?, l[j]? with
  | some a, some b => (l.set i b).set j a
  | _, _ => l

/-- The Fisher-Yates loop `for (i = n - 1; i > 0; i--)` of
`generateRandomArrangement`; `Math.floor(Math.random() * (i + 1))` is
abstracted as the injected entropy draw `rand i % (i + 1) ∈ [0, i]`. -/
def fisherYatesAux (rand : Nat → Nat) : Nat → List Student → List Student
  | 0, l => l
  | i + 1, l => fisherYatesAux rand i (swapIdx l (i + 1) (rand (i + 1) % (i + 2)))

/-- `generateRandomArrangement` from `seating-algorithms.ts`. -/
def generateRandomArrangement (rand : Nat → Nat) (students : List Student) : List Student :=
  fisherYatesAux rand (students.length - 1) students

/-- Does `needle` occur at the head of `hay`? -/
def matchesAt : List Char → List Char → Bool
  | [], _ => true
  | _ :: _, [] => false
  | a :: as, b :: bs => a == b && matchesAt as bs

/-- Does `needle` occur contiguously anywhere in `hay`? -/
def includesChars (needle : List Char) : List Char → Bool
  | [] => matchesAt needle []
  | c :: cs => matchesAt needle (c :: cs) || includesChars needle cs

/-- JS `String.prototype.includes`. -/
def jsIncludes (hay needle : String) : Bool := includesChars needle.data hay.data

/-- `generateAttentionZoneArrangement` from `seating-algorithms.ts`
(`totalSeats` is accepted and unused, as in the source). -/
def generateAttentionZoneArrangement (students : List Student) (totalSeats : Nat) :
    List Student :=
  let needsAttention := students.filter fun s =>
    decide (s.skillLevel = "beginner") ||
    jsIncludes (jsToLower s.notes) "attention" ||
    jsIncludes (jsToLower s.notes) "support"
  let others := students.filter fun s => !(decide (s ∈ needsAttention))
  let advanced := others.filter fun s => decide (s.skillLevel = "advanced")
  let remaining := others.filter fun s => !(decide (s.skillLevel = "advanced"))
  needsAttention ++ remaining ++ advanced

/-- Phase one of `generateBehaviorManagementArrangement`: place each
constrained student that is conflict-free against the last three placed,
immediately followed by the first available unconstrained buffer. -/
def behaviorPhaseOne (studentsWithConstraints studentsWithoutConstraints : List Student) :
    List Student × List String :=
  studentsWithConstraints.foldl
    (fun st student =>
      if student.id ∈ st.2 then st
      else if canPlaceStudent student (jsSliceNeg 3 st.1) then
        let st1 := (st.1 ++ [student], st.2 ++ [student.id])
        let availableBuffers := studentsWithoutConstraints.filter fun s =>
          !(decide (s.id ∈ st1.2)) && canPlaceStudent s [student]
        match availableBuffers.head? with
        | some buffer => (st1.1 ++ [buffer], st1.2 ++ [buffer.id])
        | none => st1
      else st)
    ([], [])

/-- Phase two of `generateBehaviorManagementArrangement`: remaining
constrained students are spliced in at `max(0, length - 3)`. -/
def behaviorPhaseTwo (studentsWithConstraints : List Student)
    (st : List Student × List String) : List Student × List String :=
  studentsWithConstraints.foldl
    (fun st student =>
      if student.id ∈ st.2 then st
      else (st.1.insertIdx (st.1.length - 3) student, st.2 ++ [student.id]))
    st

/-- `generateBehaviorManagementArrangement` from `seating-algorithms.ts`
(`totalSeats` is accepted and unused, as in the source). -/
def generateBehaviorManagementArrangement (students : List Student) (totalSeats : Nat) :
    List Student :=
  let studentsWithConstraints := students.filter fun s => decide (0 < s.avoidPairing.length)
  let studentsWithoutConstraints := students.filter fun s => decide (s.avoidPairing.length = 0)
  let st := behaviorPhaseTwo studentsWithConstraints
    (behaviorPhaseOne studentsWithConstraints studentsWithoutConstraints)
  students.foldl
    (fun arranged student => if student.id ∈ st.2 then arranged else arranged ++ [student])
    st.1

/-- The strategy `switch` of `generateSeatingChart`; `case 'random':` and
`default:` share the random branch. -/
def generateArrangement (students : List Student) (strategy : String) (totalSeats : Nat)
    (rand : Nat → Nat) : List Student :=
  if strategy = "mixed-ability" then generateMixedAbilityArrangement students
  else if strategy = "skill-clustering" then generateSkillClusteringArrangement students
  else if strategy = "language-support" then generateLanguageSupportArrangement students
  else if strategy = "collaborative-pairs" then generateCollaborativeArrangement students
  else if strategy = "attention-zone" then generateAttentionZoneArrangement students totalSeats
  else if strategy = "behavior-management" then
    generateBehaviorManagementArrangement students totalSeats
  else generateRandomArrangement rand students

/-- `generateSeatingChart(students, strategy, totalSeats)` from
`seating-algorithms.ts`: `totalSeats` null seats, early return on an empty
roster, otherwise `arrangement.forEach` assigns `arrangement[i].id` to seat
`i` for every `i < totalSeats`. -/
def generateSeatingChart (students : List Student) (strategy : String) (totalSeats : Nat)
    (rand : Nat → Nat) : List SeatAssignment :=
  if students.length = 0 then
    (List.range totalSeats).map fun i => { position := i, studentId := none }
  else
    let arrangement := generateArrangement students strategy totalSeats rand
    (List.range totalSeats).map fun i =>
      { position := i, studentId := (arrangement[i]?).map Student.id }

/-- The invariant carried through every strategy's `(arranged, used)` state:
`used` holds exactly the ids of `arranged` (up to order), only roster
students are placed, and no id is used twice. -/
def UsedInv (students : List Student) (st : List Student × List String) : Prop :=
  List.Perm st.2 (st.1.map Student.id) ∧ (∀ s ∈ st.1, s ∈ students) ∧ st.2.Nodup

/-- Fixture roster for C1: distinct ids, well-typed skill levels. -/
def c1exStudents : List Student :=
  [{ id := "s1", name := "Ana", primaryLanguage := "es", secondaryLanguages := ["en"],
     skillLevel := "beginner", worksWellWith := [], avoidPairing := [], notes := "" },
   { id := "s2", name := "Ben", primaryLanguage := "en", secondaryLanguages := [],
     skillLevel := "advanced", worksWellWith := ["Ana"], avoidPairing := [], notes := "" }]

/-- Fixture roster for C6. -/
def c6exStudents : List Student :=
  [{ id := "t1", name := "Cam", primaryLanguage := "fr", secondaryLanguages := [],
     skillLevel := "intermediate", worksWellWith := [], avoidPairing := ["Dee"], notes := "" },
   { id := "t2", name := "Dee", primaryLanguage := "fr", secondaryLanguages := [],
     skillLevel := "beginner", worksWellWith := [], avoidPairing := [], notes := "" }]

noncomputable section Geometry

open scoped Classical

/-- `SeatPosition` from the seating-chart grid component: seat index, room
coordinates (JS floating point idealized as `ℝ`), optional rotation in
degrees (absent exactly where the source pushes no `rotation` field). -/
structure SeatPosition where
  position : Nat
  x : ℝ
  y : ℝ
  rotation : Option ℝ

/-- The traditional-rows case of `generateLayoutPositions`.  The nested
row/column loop with its `position < seatCount` guards enumerates positions
`p = 5*row + col` for `p = 0 .. seatCount-1` (its bound
`rowsNeeded = ceil(seatCount/5)` always suffices), so it is rendered as a
map over the position index, with column `p % 5` and row `p / 5`. -/
def traditionalRowsPositions (seatCount : Nat) : List SeatPosition :=
  let seatsPerRow : Nat := 5
  let rowWidth : ℝ := (seatsPerRow : ℝ) * 120
  let startX : ℝ := (900 - rowWidth) / 2
  (List.range seatCount).map fun (p : Nat) =>
    { position := p,
      x := startX + ((p % seatsPerRow : Nat) : ℝ) * 120,
      y := ((p / seatsPerRow : Nat) : ℝ) * 100 + 140,
      rotation := none }

/-- `rowSeats = [5, 6, 7, 6]` of the stadium case. -/
def stadiumRowSeats : List Nat := [5, 6, 7, 6]

/-- One stadium row of `k` seats at row index `row`, first seat position
`firstPos`. -/
def stadiumRow (row firstPos k : Nat) : List SeatPosition :=
  let startX : ℝ := (900 - (k : ℝ) * 120) / 2
  let angleOffset : ℝ := (row : ℝ) * 20
  (List.range k).map fun (col : Nat) =>
    let centerCol : ℝ := ((k : ℝ) - 1) / 2
    let distanceFromCenter : ℝ := |(col : ℝ) - centerCol|
    { position := firstPos + col,
      x := startX + (col : ℝ) * 120 +
        (if 0 < row then distanceFromCenter * angleOffset else 0),
      y := (row : ℝ) * 120 + 140,
      rotation := some (if 0 < row then
          (if (col : ℝ) < centerCol then -5 else if centerCol < (col : ℝ) then 5 else 0)
        else 0) }

/-- The stadium loop `for (row = 0; row < 4 && position < seatCount; row++)`
with `seatsInThisRow = Math.min(rowSeats[row], seatCount - position)`. -/
def stadiumLoop : List Nat → Nat → Nat → Nat → List SeatPosition
  | [], _, _, _ => []
  | rs :: rest, row, pos, seatCount =>
    if pos < seatCount then
      stadiumRow row pos (min rs (seatCount - pos)) ++
        stadiumLoop rest (row + 1) (pos + min rs (seatCount - pos)) seatCount
    else []

/-- The stadium case of `generateLayoutPositions`. -/
def stadiumPositions (seatCount : Nat) : List SeatPosition :=
  stadiumLoop stadiumRowSeats 0 0 seatCount

/-- `isOverlappingTeacherDesk(x, y)`: does the 64x64 seat at `(x, y)`
overlap the fixed 80x60 desk at `(20, 20)`? -/
def isOverlappingTeacherDesk (x y : ℝ) : Prop :=
  let deskLeft : ℝ := 20
  let deskTop : ℝ := 20
  let deskRight : ℝ := deskLeft + 80
  let deskBottom : ℝ := deskTop + 60
  let seatSize : ℝ := 64
  ¬(deskRight ≤ x ∨ x + seatSize ≤ deskLeft ∨ deskBottom ≤ y ∨ y + seatSize ≤ deskTop)

/-- The horseshoe case of `generateLayoutPositions`: a 180-degree arc; note
`Math.max(seatCount - 1, 1)` agrees with the `Nat` subtraction here for
`seatCount = 0` as well (both give 1). -/
def horseshoePositions (seatCount : Nat) : List SeatPosition :=
  let centerX : ℝ := 400
  let centerY : ℝ := 280
  let radius : ℝ := 180
  let angleStep : ℝ := Real.pi / ((max (seatCount - 1) 1 : Nat) : ℝ)
  let startAngle : ℝ := Real.pi
  (List.range seatCount).map fun (i : Nat) =>
    let angle : ℝ := startAngle - (i : ℝ) * angleStep
    let x : ℝ := centerX + Real.cos angle * radius
    let y : ℝ := max (centerY + Real.sin angle * radius) 120
    { position := i,
      x := if isOverlappingTeacherDesk x y then 120 else x,
      y := y,
      rotation := some ((angle - Real.pi / 2) * 180 / Real.pi) }

/-- The double-horseshoe case of `generateLayoutPositions`.  The ring
bounds `innerSeats = min(ceil(seatCount/2), 16)` and
`outerSeats = min(seatCount - innerSeats, 16)`; the loops run while
`position < seatCount`, rendered by the extra `min`s `innerRan`/`outerRan`
on the ranges. -/
def doubleHorseshoePositions (seatCount : Nat) : List SeatPosition :=
  let centerX : ℝ := 420
  let centerY : ℝ := 300
  let innerSeats : Nat := min ((seatCount + 1) / 2) 16
  let outerSeats : Nat := min (seatCount - innerSeats) 16
  let innerRan : Nat := min innerSeats seatCount
  let outerRan : Nat := min outerSeats (seatCount - innerRan)
  let innerRadius : ℝ := 140
  let innerAngleStep : ℝ := Real.pi / ((max (innerSeats - 1) 1 : Nat) : ℝ)
  let outerRadius : ℝ := 240
  let outerAngleStep : ℝ := Real.pi / ((max (outerSeats - 1) 1 : Nat) : ℝ)
  ((List.range innerRan).map fun (i : Nat) =>
    let angle : ℝ := Real.pi - (i : ℝ) * innerAngleStep
    let x : ℝ := centerX + Real.cos angle * innerRadius
    let y : ℝ := max (centerY + Real.sin angle * innerRadius) 120
    { position := i,
      x := if isOverlappingTeacherDesk x y then 120 else x,
      y := y,
      rotation := some ((angle - Real.pi / 2) * 180 / Real.pi) }) ++
  ((List.range outerRan).map fun (i : Nat) =>
    let angle : ℝ := Real.pi - (i : ℝ) * outerAngleStep
    let x : ℝ := centerX + Real.cos angle * outerRadius
    let y : ℝ := max (centerY + Real.sin angle * outerRadius) 120
    { position := innerRan + i,
      x := if isOverlappingTeacherDesk x y then 120 else x,
      y := y,
      rotation := some ((angle - Real.pi / 2) * 180 / Real.pi) })

/-- The circle case of `generateLayoutPositions` (for `seatCount = 0` the
JS `angleStep` is `Infinity` but the loop body never runs; here the
division by zero is likewise irrelevant). -/
def circlePositions (seatCount : Nat) : List SeatPosition :=
  let centerX : ℝ := 400
  let centerY : ℝ := 280
  let radius : ℝ := 160
  let angleStep : ℝ := (2 * Real.pi) / (seatCount : ℝ)
  (List.range seatCount).map fun (i : Nat) =>
    let angle : ℝ := (i : ℝ) * angleStep - Real.pi / 2
    let x : ℝ := centerX + Real.cos angle * radius
    let y : ℝ := max (centerY + Real.sin angle * radius) 120
    { position := i,
      x := if isOverlappingTeacherDesk x y then 120 else x,
      y := y,
      rotation := some (angle * 180 / Real.pi + 90) }

/-- The six hardcoded cluster centers of the groups case. -/
def groupPositionsCenters : List (ℝ × ℝ) :=
  [(150, 160), (400, 160), (650, 160), (150, 360), (400, 360), (650, 360)]

/-- The four per-cluster seat offsets of the groups case. -/
def groupSeatOffsets : List (ℝ × ℝ) := [(-42, -42), (42, -42), (-42, 42), (42, 42)]

/-- The groups case of `generateLayoutPositions`:
`groupsNeeded = ceil(seatCount/4)` clusters, capped by the loop guard
`g < groupPositions.length` at the six hardcoded centers; the mutable
`position` counter advances 4 per cluster, so seat `k` of cluster `g`
receives position `4*g + k`. -/
def groupsPositions (seatCount : Nat) : List SeatPosition :=
  let groupsNeeded : Nat := (seatCount + 3) / 4
  (List.range (min groupsNeeded groupPositionsCenters.length)).flatMap fun g =>
    let groupCenter := groupPositionsCenters.getD g (0, 0)
    groupSeatOffsets.enum.map fun ko =>
      { position := 4 * g + ko.1,
        x := groupCenter.1 + ko.2.1,
        y := groupCenter.2 + ko.2.2,
        rotation := some 0 }

/-- The pairs case of `generateLayoutPositions`.  The triple loop
(row, pairCol < 3, seat < 2), each level guarded by
`position < seatCount`, enumerates positions `p = 6*row + 2*pairCol + seat`
for `p = 0 .. seatCount-1` (its bound `rowsNeeded = ceil(ceil(seatCount/2)/3)`
always suffices), rendered as a map over the position index. -/
def pairsPositions (seatCount : Nat) : List SeatPosition :=
  let columns : Nat := 3
  let totalWidth : ℝ := (columns : ℝ) * 200
  let startX : ℝ := (900 - totalWidth) / 2
  (List.range seatCount).map fun (p : Nat) =>
    { position := p,
      x := startX + (((p % 6) / 2 : Nat) : ℝ) * 200 + ((p % 2 : Nat) : ℝ) * 80,
      y := ((p / 6 : Nat) : ℝ) * 120 + 140,
      rotation := some 0 }

/-- `generateLayoutPositions(layoutType, seatCount)` from the seating-chart
grid component; unrecognized kinds fall back to traditional rows. -/
def generateLayoutPositions (layoutType : String) (seatCount : Nat) : List SeatPosition :=
  if layoutType = "traditional-rows" then traditionalRowsPositions seatCount
  else if layoutType = "stadium" then stadiumPositions seatCount
  else if layoutType = "horseshoe" then horseshoePositions seatCount
  else if layoutType = "double-horseshoe" then doubleHorseshoePositions seatCount
  else if layoutType = "circle" then circlePositions seatCount
  else if layoutType = "groups" then groupsPositions seatCount
  else if layoutType = "pairs" then pairsPositions seatCount
  else traditionalRowsPositions seatCount

end Geometry

/-- `getFrontCenterPositions(totalSeats, layoutType)` from
`seating-algorithms.ts`: the hardcoded action-zone seat indices per layout,
with a `min(8, totalSeats)` prefix for every other layout. -/
def getFrontCenterPositions (totalSeats : Nat) (layoutType : String) : List Nat :=
  if layoutType = "traditional-rows" then [0, 1, 2, 3, 6, 7, 8, 9]
  else if layoutType = "horseshoe" then [0, 1, 2, 3, 4, 5, 6, 7]
  else if layoutType = "circle" then [0, 1, 2, 3, 12, 13, 14, 15]
  else List.range (min 8 totalSeats)

/-- One inner-`forEach` step of `assessSkillMixing`: the focal student
against one adjacent position, updating the
`(mixingScore, totalComparisons)` counters.  The two early `return`s
(empty seat, unresolved id) are the `none` branch of `seatStudent`. -/
def skillMixingStep (seats : List SeatAssignment) (students : List Student)
    (student : Student) (acc : Nat × Nat) (adjPos : Nat) : Nat × Nat :=
  match seatStudent seats students adjPos with
  | none => acc
  | some adjStudent =>
    (acc.1 + (if student.skillLevel = adjStudent.skillLevel then 0 else 2), acc.2 + 1)

/-- The `(mixingScore, totalComparisons)` counters of `assessSkillMixing`
after its double `forEach` (adjacency queried with no layout type, as the
source omits the third argument). -/
def skillMixingCounts (seats : List SeatAssignment) (students : List Student) : Nat × Nat :=
  (List.range seats.length).foldl
    (fun acc index =>
      match seatStudent seats students index with
      | none => acc
      | some student =>
        (getAdjacentPositions index seats.length none).foldl
          (skillMixingStep seats students student) acc)
    (0, 0)

/-- `assessSkillMixing(seats, students)`:
`(mixingScore / totalComparisons) * 50` when any comparison happened,
else 0; JS number arithmetic is exact rational arithmetic here. -/
def assessSkillMixing (seats : List SeatAssignment) (students : List Student) : ℚ :=
  let counts := skillMixingCounts seats students
  if 0 < counts.2 then ((counts.1 : ℚ) / (counts.2 : ℚ)) * 50 else 0

/-- The `studentsInActionZone` chain of `assessSeatingEffectiveness`:
`map` seat ids over the front-center positions, `filter(Boolean)`, `map`
through the student map, `filter(Boolean)` — i.e. the front-center seats
whose occupant resolves in the roster, in order. -/
def studentsInActionZone (seats : List SeatAssignment) (students : List Student)
    (layoutType : String) : List Student :=
  (getFrontCenterPositions seats.length layoutType).filterMap
    (seatStudent seats students)

/-- Insight pushed when the action zone is well used. -/
def insightExcellentZone : String :=
  "Excellent use of attention zone - most struggling students positioned for maximum teacher interaction"

/-- Insight pushed when the action zone is underused. -/
def insightMoveStruggling : String :=
  "Consider moving more struggling students to front-center action zone"

/-- Insight pushed when the validator reports violations. -/
def insightViolations (n : Nat) : String :=
  toString n ++ " seating constraint violations detected"

/-- Insight pushed for a high mixing score under the mixed-ability strategy. -/
def insightGoodMixing : String :=
  "Good skill level mixing promotes peer learning opportunities"

/-- `assessSeatingEffectiveness(seats, students, strategy, layoutType)` from
`seating-algorithms.ts`: start from 100, subtract 15 for an underused
action zone, subtract 10 per constraint violation, add the centred mixing
score under mixed-ability, and clamp with `Math.max(0, Math.min(100, score))`;
returns the clamped score with the accumulated insights. -/
def assessSeatingEffectiveness (seats : List SeatAssignment) (students : List Student)
    (strategy : String) (layoutType : String) : ℚ × List String :=
  let score0 : ℚ := 100
  let studentsZone := studentsInActionZone seats students layoutType
  let beginnersInActionZone :=
    (studentsZone.filter fun s => decide (s.skillLevel = "beginner")).length
  let totalBeginners :=
    (students.filter fun s => decide (s.skillLevel = "beginner")).length
  let zoneStep : ℚ × List String :=
    if 0 < totalBeginners then
      let actionZoneUtilization : ℚ := (beginnersInActionZone : ℚ) / (totalBeginners : ℚ)
      if 7 / 10 < actionZoneUtilization then (score0, [insightExcellentZone])
      else if actionZoneUtilization < 3 / 10 then (score0 - 15, [insightMoveStruggling])
      else (score0, [])
    else (score0, [])
  let violations := (validateSeatingArrangement seats students none).violations
  let score2 := zoneStep.1 - (violations.length : ℚ) * 10
  let insights2 := zoneStep.2 ++
    (if 0 < violations.length then [insightViolations violations.length] else [])
  let final :=
    if strategy = "mixed-ability" then
      let mixingScore := assessSkillMixing seats students
      (score2 + mixingScore - 50,
        insights2 ++ (if 70 < mixingScore then [insightGoodMixing] else []))
    else (score2, insights2)
  (max 0 (min 100 final.1), final.2)

/-! ### Theorems -/

/-- `Math.ceil(n / 4)` on a natural equals `(n + 3) / 4`. -/
theorem ceil_div_four (n : Nat) : (Nat.ceil ((n : ℚ) / 4)) = (n + 3) / 4 := by
  rcases Nat.eq_zero_or_pos n with h0 | hpos
  · subst h0
    norm_num
  · have hne : (n + 3) / 4 ≠ 0 := by omega
    rw [Nat.ceil_eq_iff hne]
    constructor
    · rw [lt_div_iff₀ (by norm_num : (0:ℚ) < 4)]
      have hlt : ((n + 3) / 4 - 1) * 4 < n := by omega
      calc ((((n + 3) / 4 - 1 : Nat)) : ℚ) * 4
          = ((((n + 3) / 4 - 1) * 4 : Nat) : ℚ) := by push_cast; ring
        _ < (n : ℚ) := by exact_mod_cast hlt
    · rw [div_le_iff₀ (by norm_num : (0:ℚ) < 4)]
      have hle : n ≤ (n + 3) / 4 * 4 := by omega
      calc (n : ℚ) ≤ (((n + 3) / 4 * 4 : Nat) : ℚ) := by exact_mod_cast hle
        _ = (((n + 3) / 4 : Nat) : ℚ) * 4 := by push_cast; ring

/-- `seatViolations` at a focal seat that does not resolve to a roster
student is empty. -/
theorem seatViolations_of_none {seats : List SeatAssignment} {students : List Student}
    {i : Nat} (layoutType : Option String) (h : seatStudent seats students i = none) :
    seatViolations seats students layoutType i = [] := by
  rcases h1 : seats[i]? with _ | seat
  · simp [seatViolations, h1]
  rcases h2 : seat.studentId with _ | sid
  · simp [seatViolations, h1, h2]
  rcases h3 : studentMapGet students sid with _ | student
  · simp [seatViolations, h1, h2, h3]
  · exfalso
    simp [seatStudent, h1, h2, h3] at h

/-- `seatViolations` at a resolved focal seat is the concatenation of the
per-adjacent-position checks. -/
theorem seatViolations_of_some {seats : List SeatAssignment} {students : List Student}
    {i : Nat} {student : Student} (layoutType : Option String)
    (h : seatStudent seats students i = some student) :
    seatViolations seats students layoutType i =
      (getAdjacentPositions i seats.length layoutType).flatMap
        (adjacentViolation seats students student) := by
  rcases h1 : seats[i]? with _ | seat
  · simp [seatStudent, h1] at h
  rcases h2 : seat.studentId with _ | sid
  · simp [seatStudent, h1, h2] at h
  rcases h3 : studentMapGet students sid with _ | st
  · simp [seatStudent, h1, h2, h3] at h
  · have hst : st = student := by
      simp [seatStudent, h1, h2, h3] at h
      exact h
    subst hst
    simp [seatViolations, h1, h2, h3]

/-- `adjacentViolation` against an unresolvable adjacent seat is empty. -/
theorem adjacentViolation_of_none {seats : List SeatAssignment} {students : List Student}
    {j : Nat} (student : Student) (h : seatStudent seats students j = none) :
    adjacentViolation seats students student j = [] := by
  rcases h1 : seats[j]? with _ | adjacentSeat
  · simp [adjacentViolation, h1]
  rcases h2 : adjacentSeat.studentId with _ | adjSid
  · simp [adjacentViolation, h1, h2]
  rcases h3 : studentMapGet students adjSid with _ | adjacentStudent
  · simp [adjacentViolation, h1, h2, h3]
  · exfalso
    simp [seatStudent, h1, h2, h3] at h

/-- `adjacentViolation` against a resolved adjacent seat reduces to a single
guarded message. -/
theorem adjacentViolation_of_some {seats : List SeatAssignment} {students : List Student}
    {j : Nat} {t : Student} (student : Student) (h : seatStudent seats students j = some t) :
    adjacentViolation seats students student j =
      (if student.avoidPairing.any (fun nm => decide (jsToLower nm = jsToLower t.name)) then
        [violationMessage student t] else []) := by
  rcases h1 : seats[j]? with _ | adjacentSeat
  · simp [seatStudent, h1] at h
  rcases h2 : adjacentSeat.studentId with _ | adjSid
  · simp [seatStudent, h1, h2] at h
  rcases h3 : studentMapGet students adjSid with _ | adjacentStudent
  · simp [seatStudent, h1, h2, h3] at h
  · have hst : adjacentStudent = t := by
      simp [seatStudent, h1, h2, h3] at h
      exact h
    subst hst
    simp [adjacentViolation, h1, h2, h3]

/-- Nulling out null-or-unknown studentIds does not change what any seat
resolves to. -/
theorem seatStudent_map_nullify (seats : List SeatAssignment) (students : List Student)
    (k : Nat) :
    seatStudent (seats.map (nullifyUnresolved students)) students k =
      seatStudent seats students k := by
  simp only [seatStudent, List.getElem?_map]
  rcases h1 : seats[k]? with _ | seat
  · rfl
  rcases h2 : seat.studentId with _ | sid
  · simp [nullifyUnresolved, h2]
  rcases h3 : studentMapGet students sid with _ | st
  · simp [nullifyUnresolved, h2, h3]
  · simp [nullifyUnresolved, h2, h3]

/-- C2: the seat-count resolver.  `groups` rounds the student count up to a
whole number of groups of 4 (so the result is a multiple of 4 in
`[studentCount, studentCount + 4)`); every other kind is
`min studentCount ceiling` with ceilings traditional-rows 30, stadium 28,
horseshoe 20, double-horseshoe 32, circle 16, pairs 20, and 24 for any
unrecognized kind; a student count of 0 always resolves to 0 seats;
`getSeatCount "circle" 50 = 16` and `getSeatCount "traditional-rows" 5 = 5`. -/
theorem c2_seat_count_resolver (studentCount : Nat) :
    getSeatCount "groups" studentCount = (Nat.ceil ((studentCount : ℚ) / 4)) * 4 ∧
    4 ∣ getSeatCount "groups" studentCount ∧
    studentCount ≤ getSeatCount "groups" studentCount ∧
    getSeatCount "groups" studentCount < studentCount + 4 ∧
    getSeatCount "traditional-rows" studentCount = min studentCount 30 ∧
    getSeatCount "stadium" studentCount = min studentCount 28 ∧
    getSeatCount "horseshoe" studentCount = min studentCount 20 ∧
    getSeatCount "double-horseshoe" studentCount = min studentCount 32 ∧
    getSeatCount "circle" studentCount = min studentCount 16 ∧
    getSeatCount "pairs" studentCount = min studentCount 20 ∧
    (∀ kind : String,
      kind ∉ (["groups", "traditional-rows", "stadium", "horseshoe", "double-horseshoe",
        "circle", "pairs"] : List String) →
      getSeatCount kind studentCount = min studentCount 24) ∧
    (∀ kind : String, getSeatCount kind 0 = 0) ∧
    getSeatCount "circle" 50 = 16 ∧
    getSeatCount "traditional-rows" 5 = 5 := by
  have hceil := ceil_div_four studentCount
  have hg : getSeatCount "groups" studentCount = (studentCount + 3) / 4 * 4 := by
    simp [getSeatCount]
  refine ⟨?_, ?_, ?_, ?_, ?_, ?_, ?_, ?_, ?_, ?_, ?_, ?_, ?_, ?_⟩
  · rw [hg, hceil]
  · rw [hg]; exact dvd_mul_left 4 _
  · rw [hg]; omega
  · rw [hg]; omega
  · simp [getSeatCount]
  · simp [getSeatCount]
  · simp [getSeatCount]
  · simp [getSeatCount]
  · simp [getSeatCount]
  · simp [getSeatCount]
  · intro kind hk
    simp only [List.mem_cons, List.not_mem_nil, or_false, not_or] at hk
    obtain ⟨h1, h2, h3, h4, h5, h6, h7⟩ := hk
    simp [getSeatCount, h1, h2, h3, h4, h5, h6, h7]
  · intro kind
    rw [getSeatCount]
    split
    · decide
    · simp
  · simp [getSeatCount]
  · simp [getSeatCount]

/-- C2 witness: instantiation of the quantified parts at concrete inputs. -/
theorem c2_seat_count_resolver_witness :
    ("auditorium" ∉ (["groups", "traditional-rows", "stadium", "horseshoe",
      "double-horseshoe", "circle", "pairs"] : List String)) ∧
    getSeatCount "auditorium" 7 = min 7 24 ∧ getSeatCount "groups" 10 = 12 := by
  refine ⟨by decide, (c2_seat_count_resolver 7).2.2.2.2.2.2.2.2.2.2.1 "auditorium" (by decide), ?_⟩
  have h := (c2_seat_count_resolver 10).2.2.2.2.2.2.2.2.2.2.1
  decide

/-- A `forEach` that pushes `m j` under guard `c j` builds the same array as
mapping over the filtered list. -/
theorem flatMapGuardEqMapFilter {α β : Type} (l : List α) (c : α → Bool) (m : α → β) :
    (l.flatMap fun j => if c j then [m j] else []) = (l.filter c).map m := by
  induction l with
  | nil => rfl
  | cons x xs ih =>
    rw [List.flatMap_cons, List.filter_cons, ih]
    by_cases hx : c x
    · simp [hx]
    · simp [hx]

/-- Pointwise-equal functions give equal flatMaps. -/
theorem flatMapCongr {α β : Type} {l : List α} {f g : α → List β}
    (h : ∀ a ∈ l, f a = g a) : l.flatMap f = l.flatMap g := by
  induction l with
  | nil => rfl
  | cons x xs ih =>
    rw [List.flatMap_cons, List.flatMap_cons, h x (by simp), ih]
    intro a ha
    exact h a (by simp [ha])

/-- C5 counterexample (negation of the claim) at the claim's own canonical
concrete pair: Alice's avoid-pairing list names Bob while Bob's list is
empty — the asymmetric configuration the claim says makes the two directions
differ — yet `hasAvoidConflict` agrees in both directions (both `true`),
because it tests both students' avoid-pairing lists. -/
theorem c5_counterexample :
    hasAvoidConflict
        { id := "a", name := "Alice", primaryLanguage := "en", secondaryLanguages := [],
          skillLevel := "beginner", worksWellWith := [], avoidPairing := ["Bob"],
          notes := "" }
        { id := "b", name := "Bob", primaryLanguage := "en", secondaryLanguages := [],
          skillLevel := "beginner", worksWellWith := [], avoidPairing := [],
          notes := "" } =
      hasAvoidConflict
        { id := "b", name := "Bob", primaryLanguage := "en", secondaryLanguages := [],
          skillLevel := "beginner", worksWellWith := [], avoidPairing := [],
          notes := "" }
        { id := "a", name := "Alice", primaryLanguage := "en", secondaryLanguages := [],
          skillLevel := "beginner", worksWellWith := [], avoidPairing := ["Bob"],
          notes := "" } ∧
    hasAvoidConflict
        { id := "a", name := "Alice", primaryLanguage := "en", secondaryLanguages := [],
          skillLevel := "beginner", worksWellWith := [], avoidPairing := ["Bob"],
          notes := "" }
        { id := "b", name := "Bob", primaryLanguage := "en", secondaryLanguages := [],
          skillLevel := "beginner", worksWellWith := [], avoidPairing := [],
          notes := "" } = true := by
  constructor
  · decide
  · decide

/-- C5 (amended): the conflict predicate is symmetric; it holds iff either
student's lowercased avoid-pairing list contains the other's lowercased
name, a condition invariant under swapping the two students even when the
underlying avoid lists are asymmetric. -/
theorem c5_conflict_symmetry (A B : Student) :
    (hasAvoidConflict A B = true ↔
      jsToLower B.name ∈ A.avoidPairing.map jsToLower ∨
        jsToLower A.name ∈ B.avoidPairing.map jsToLower) ∧
    (hasAvoidConflict A B = true ↔ hasAvoidConflict B A = true) := by
  constructor
  · simp [hasAvoidConflict]
  · constructor
    · intro h
      rw [← h]
      simp only [hasAvoidConflict]
      exact (Bool.or_comm _ _).symm
    · intro h
      rw [← h]
      simp only [hasAvoidConflict]
      exact Bool.or_comm _ _

/-- C4 counterexample: with Alice avoid-pairing Bob (but not conversely) in
two mutually adjacent seats, both ordered pairs (0,1) and (1,0) satisfy the
claim's either-direction condition, yet the validator emits a single
violation — it emits none for the ordered pair (1,0) because it only
consults the focal student's own avoid list, and Bob's is empty. -/
theorem c4_counterexample :
    claimViolationPairs c4exSeats c4exStudents none = [(0, 1), (1, 0)] ∧
    (validateSeatingArrangement c4exSeats c4exStudents none).violations =
      ["Alice should not sit next to Bob"] ∧
    (validateSeatingArrangement c4exSeats c4exStudents none).violations.length ≠
      (claimViolationPairs c4exSeats c4exStudents none).length := by
  refine ⟨by decide, by decide, by decide⟩

/-- C4 (amended): the validator emits exactly one violation for every
ordered pair (i, j) of occupied, roster-resolvable seats with j adjacent to
i whose FOCAL student (the one at seat i) case-insensitively lists the
adjacent student's name in its avoid-pairing list — in order, with the
corresponding message — and `isValid` is true iff that pair list (hence the
violation list) is empty. -/
theorem c4_validator_characterization (seats : List SeatAssignment) (students : List Student)
    (layoutType : Option String) :
    (validateSeatingArrangement seats students layoutType).violations =
      (specViolationPairs seats students layoutType).map (pairMessage seats students) ∧
    ((validateSeatingArrangement seats students layoutType).isValid = true ↔
      specViolationPairs seats students layoutType = []) := by
  have hpoint : ∀ i, seatViolations seats students layoutType i =
      ((getAdjacentPositions i seats.length layoutType).filter
        (focalAvoidsAdjacent seats students i)).map
          (pairMessage seats students ∘ fun j => (i, j)) := by
    intro i
    rcases hs : seatStudent seats students i with _ | student
    · rw [seatViolations_of_none layoutType hs]
      have hf : ∀ j ∈ getAdjacentPositions i seats.length layoutType,
          ¬ focalAvoidsAdjacent seats students i j = true := by
        intro j hj
        simp [focalAvoidsAdjacent, hs]
      rw [List.filter_eq_nil_iff.mpr hf]
      rfl
    · rw [seatViolations_of_some layoutType hs]
      have hinner : ∀ j ∈ getAdjacentPositions i seats.length layoutType,
          adjacentViolation seats students student j =
            (if focalAvoidsAdjacent seats students i j then
              [(pairMessage seats students ∘ fun k => (i, k)) j] else []) := by
        intro j hj
        rcases ht : seatStudent seats students j with _ | t
        · rw [adjacentViolation_of_none student ht]
          simp [focalAvoidsAdjacent, ht]
        · rw [adjacentViolation_of_some student ht]
          simp only [focalAvoidsAdjacent, pairMessage, Function.comp, hs, ht]
      rw [flatMapCongr hinner, flatMapGuardEqMapFilter]
  have hmain : (validateSeatingArrangement seats students layoutType).violations =
      (specViolationPairs seats students layoutType).map (pairMessage seats students) := by
    simp only [validateSeatingArrangement, specViolationPairs, adjacentPairsWhere]
    rw [List.map_flatMap]
    apply flatMapCongr
    intro i hi
    rw [List.map_map]
    exact hpoint i
  refine ⟨hmain, ?_⟩
  have hiv : (validateSeatingArrangement seats students layoutType).isValid =
      ((validateSeatingArrangement seats students layoutType).violations.length == 0) := rfl
  rw [hiv, hmain]
  simp [List.length_eq_zero]

/-- C10: the validator derives no violation from a seat whose studentId is
null or unknown to the roster — nulling out every такой seat leaves the
result unchanged — and an all-null chart validates as `⟨true, []⟩`. -/
theorem c10_validator_skips_unresolved (seats : List SeatAssignment) (students : List Student)
    (layoutType : Option String) :
    validateSeatingArrangement (seats.map (nullifyUnresolved students)) students layoutType =
      validateSeatingArrangement seats students layoutType ∧
    ((∀ seat ∈ seats, seat.studentId = none) →
      validateSeatingArrangement seats students layoutType = ⟨true, []⟩) := by
  constructor
  · have hlen : (seats.map (nullifyUnresolved students)).length = seats.length := by simp
    have hsv : ∀ i ∈ List.range seats.length,
        seatViolations (seats.map (nullifyUnresolved students)) students layoutType i =
          seatViolations seats students layoutType i := by
      intro i _
      rcases hs : seatStudent seats students i with _ | student
      · rw [seatViolations_of_none layoutType (by rw [seatStudent_map_nullify]; exact hs),
          seatViolations_of_none layoutType hs]
      · rw [seatViolations_of_some layoutType (by rw [seatStudent_map_nullify]; exact hs),
          seatViolations_of_some layoutType hs, hlen]
        apply flatMapCongr
        intro j _
        rcases ht : seatStudent seats students j with _ | t
        · rw [adjacentViolation_of_none student (by rw [seatStudent_map_nullify]; exact ht),
            adjacentViolation_of_none student ht]
        · rw [adjacentViolation_of_some student (by rw [seatStudent_map_nullify]; exact ht),
            adjacentViolation_of_some student ht]
    simp only [validateSeatingArrangement, hlen]
    rw [flatMapCongr hsv]
  · intro hnull
    have hz : (validateSeatingArrangement seats students layoutType).violations = [] := by
      simp only [validateSeatingArrangement]
      rw [List.flatMap_eq_nil_iff]
      intro i hi
      rw [List.mem_range] at hi
      apply seatViolations_of_none
      simp [seatStudent, List.getElem?_eq_getElem hi,
        hnull (seats[i]) (seats.getElem_mem hi)]
    have hrepr : validateSeatingArrangement seats students layoutType =
        ⟨(validateSeatingArrangement seats students layoutType).violations.length == 0,
         (validateSeatingArrangement seats students layoutType).violations⟩ := rfl
    rw [hrepr, hz]
    rfl

/-- C10 witness: a two-seat all-null chart validates as valid with no
violations, via the theorem applied at a concrete input. -/
theorem c10_validator_skips_unresolved_witness :
    (∀ seat ∈ ([⟨0, none⟩, ⟨1, none⟩] : List SeatAssignment), seat.studentId = none) ∧
    validateSeatingArrangement [⟨0, none⟩, ⟨1, none⟩] [] none = ⟨true, []⟩ :=
  ⟨by decide,
   (c10_validator_skips_unresolved [⟨0, none⟩, ⟨1, none⟩] [] none).2 (by decide)⟩

/-- A fold whose every step appends some sublist of `chunk i` produces the
initial accumulator followed by a sublist of the concatenated chunks. -/
theorem foldl_append_sublist {α ι : Type} {f : List α → ι → List α} {chunk : ι → List α}
    (hstep : ∀ acc i, ∃ t, f acc i = acc ++ t ∧ List.Sublist t (chunk i)) :
    ∀ (l : List ι) (acc : List α), ∃ t,
      l.foldl f acc = acc ++ t ∧ List.Sublist t (l.flatMap chunk) := by
  intro l
  induction l with
  | nil => exact fun acc => ⟨[], by simp, by simp⟩
  | cons x xs ih =>
    intro acc
    obtain ⟨t0, h0, hs0⟩ := hstep acc x
    obtain ⟨t1, h1, hs1⟩ := ih (f acc x)
    refine ⟨t0 ++ t1, ?_, ?_⟩
    · rw [List.foldl_cons, h1, h0, List.append_assoc]
    · rw [List.flatMap_cons]
      exact hs0.append hs1

/-- Reading a list through `range n` by optional indexing reproduces it when
`n` covers its length. -/
theorem flatMap_range_toList {α : Type} (l : List α) {n : Nat} (h : l.length ≤ n) :
    (List.range n).flatMap (fun i => (l[i]?).toList) = l := by
  have hm : ∀ m, (List.range m).flatMap (fun i => (l[i]?).toList) = l.take m := by
    intro m
    induction m with
    | zero => simp
    | succ k ih =>
      rw [List.range_succ, List.flatMap_append, ih, List.flatMap_cons, List.flatMap_nil,
        List.take_succ, List.append_nil]
  rw [hm n, List.take_of_length_le h]

/-- A flatMap of three-part chunks is a permutation of the three flatMaps
concatenated. -/
theorem flatMap_three_perm {α β : Type} (l : List α) (f g h : α → List β) :
    List.Perm (l.flatMap fun i => f i ++ g i ++ h i)
      (l.flatMap f ++ l.flatMap g ++ l.flatMap h) := by
  induction l with
  | nil => simp
  | cons x xs ih =>
    simp only [List.flatMap_cons]
    rw [← Multiset.coe_eq_coe] at ih ⊢
    simp only [← Multiset.coe_add] at ih ⊢
    rw [ih]
    abel

/-- Filters by mutually exclusive predicates concatenate, up to
permutation, to the filter by their disjunction. -/
theorem filter_or_perm {α : Type} (p q : α → Bool) (l : List α)
    (hpq : ∀ x ∈ l, ¬(p x = true ∧ q x = true)) :
    List.Perm (l.filter p ++ l.filter q) (l.filter fun x => p x || q x) := by
  induction l with
  | nil => simp
  | cons x xs ih =>
    have ih2 := ih fun y hy => hpq y (List.mem_cons_of_mem x hy)
    cases hp : p x with
    | true =>
      have hq : q x = false := by
        cases hqt : q x with
        | true => exact absurd ⟨hp, hqt⟩ (hpq x (List.mem_cons_self x xs))
        | false => rfl
      simp only [List.filter_cons, hp, hq, Bool.true_or, if_true, if_false, List.cons_append]
      exact ih2.cons x
    | false =>
      cases hq : q x with
      | true =>
        simp only [List.filter_cons, hp, hq, Bool.false_or, if_true, if_false]
        exact (List.perm_middle.trans (ih2.cons x))
      | false =>
        simp only [List.filter_cons, hp, hq, Bool.false_or, if_false]
        exact ih2

/-- For a roster whose skill levels are all well-typed, the three buckets
partition the roster. -/
theorem three_bucket_perm (students : List Student)
    (hwt : ∀ s ∈ students,
      s.skillLevel ∈ (["beginner", "intermediate", "advanced"] : List String)) :
    List.Perm
      ((students.filter fun s => decide (s.skillLevel = "beginner")) ++
        (students.filter fun s => decide (s.skillLevel = "intermediate")) ++
        (students.filter fun s => decide (s.skillLevel = "advanced")))
      students := by
  have hbi : ∀ x ∈ students,
      ¬(decide (x.skillLevel = "beginner") = true ∧
        decide (x.skillLevel = "intermediate") = true) := by
    intro x _ h
    simp only [decide_eq_true_eq] at h
    have := h.1.symm.trans h.2
    simp at this
  have h1 := filter_or_perm _ _ students hbi
  have hbia : ∀ x ∈ students,
      ¬((decide (x.skillLevel = "beginner") || decide (x.skillLevel = "intermediate")) = true ∧
        decide (x.skillLevel = "advanced") = true) := by
    intro x _ h
    obtain ⟨h1x, h2x⟩ := h
    rcases Bool.or_eq_true_iff.mp h1x with hb | hi
    · simp only [decide_eq_true_eq] at hb h2x
      have := hb.symm.trans h2x
      simp at this
    · simp only [decide_eq_true_eq] at hi h2x
      have := hi.symm.trans h2x
      simp at this
  have h2 := filter_or_perm _ _ students hbia
  have hall : students.filter (fun x =>
      (decide (x.skillLevel = "beginner") || decide (x.skillLevel = "intermediate")) ||
        decide (x.skillLevel = "advanced")) = students := by
    rw [List.filter_eq_self]
    intro x hx
    have := hwt x hx
    simp only [List.mem_cons, List.not_mem_nil, or_false] at this
    rcases this with h | h | h <;> simp [h]
  rw [hall] at h2
  exact (h1.append (List.Perm.refl _)).trans h2

/-- Membership after the clean-up fold of the mixed-ability strategy. -/
theorem addMissing_mem {mixed allGroups : List Student} {x : Student} :
    x ∈ addMissing mixed allGroups ↔ x ∈ mixed ∨ x ∈ allGroups := by
  unfold addMissing
  induction allGroups generalizing mixed with
  | nil => simp
  | cons y ys ih =>
    rw [List.foldl_cons]
    by_cases hy : y ∈ mixed
    · rw [if_pos hy, ih, List.mem_cons]
      constructor
      · rintro (h | h)
        · exact Or.inl h
        · exact Or.inr (Or.inr h)
      · rintro (h | h | h)
        · exact Or.inl h
        · exact Or.inl (h ▸ hy)
        · exact Or.inr h
    · rw [if_neg hy, ih, List.mem_append, List.mem_singleton, List.mem_cons]
      constructor
      · rintro ((h | h) | h)
        · exact Or.inl h
        · exact Or.inr (Or.inl h)
        · exact Or.inr (Or.inr h)
      · rintro (h | h | h)
        · exact Or.inl (Or.inl h)
        · exact Or.inl (Or.inr h)
        · exact Or.inr h

/-- The clean-up fold preserves freedom from duplicates. -/
theorem addMissing_nodup {mixed allGroups : List Student} (h : mixed.Nodup) :
    (addMissing mixed allGroups).Nodup := by
  unfold addMissing
  induction allGroups generalizing mixed with
  | nil => exact h
  | cons y ys ih =>
    rw [List.foldl_cons]
    by_cases hy : y ∈ mixed
    · rw [if_pos hy]
      exact ih h
    · rw [if_neg hy]
      apply ih
      rw [List.nodup_append]
      refine ⟨h, List.nodup_singleton y, fun x hx hmem => ?_⟩
      rw [List.mem_singleton] at hmem
      exact hy (hmem ▸ hx)

/-- The clean-up fold turns any duplicate-free subcollection of `allGroups`
into a permutation of `allGroups`. -/
theorem addMissing_perm {mixed allGroups : List Student} (hall : allGroups.Nodup)
    (hmix : mixed.Nodup) (hsub : ∀ x ∈ mixed, x ∈ allGroups) :
    List.Perm (addMissing mixed allGroups) allGroups := by
  rw [List.perm_ext_iff_of_nodup (addMissing_nodup hmix) hall]
  intro a
  rw [addMissing_mem]
  constructor
  · rintro (h | h)
    · exact hsub a h
    · exact h
  · exact Or.inr

/-- The shared clean-up loop appends (as a multiset) exactly the not-used
students. -/
theorem placeRemaining_perm (students : List Student) (used : List String) (back : Nat) :
    ∀ arranged : List Student,
      List.Perm (placeRemaining students used back arranged)
        (arranged ++ students.filter fun s => !(decide (s.id ∈ used))) := by
  unfold placeRemaining
  induction students with
  | nil => intro arranged; simp
  | cons s ss ih =>
    intro arranged
    rw [List.foldl_cons, List.filter_cons]
    by_cases hs : s.id ∈ used
    · rw [if_pos hs]
      have hdrop : (!(decide (s.id ∈ used))) = false := by simp [hs]
      rw [hdrop, if_neg (by simp)]
      exact ih arranged
    · rw [if_neg hs]
      have hkeep : (!(decide (s.id ∈ used))) = true := by simp [hs]
      rw [hkeep, if_pos rfl]
      have hstep : List.Perm
          (if canPlaceStudent s (jsSliceNeg 2 arranged) = true then arranged ++ [s]
            else arranged.insertIdx (arranged.length - back) s)
          (s :: arranged) := by
        by_cases hc : canPlaceStudent s (jsSliceNeg 2 arranged) = true
        · rw [if_pos hc]
          exact List.perm_append_singleton s arranged
        · rw [if_neg hc]
          exact List.perm_insertIdx s arranged (Nat.sub_le _ _)
      have h1 := ih (if canPlaceStudent s (jsSliceNeg 2 arranged) = true then arranged ++ [s]
        else arranged.insertIdx (arranged.length - back) s)
      have h2 := hstep.append
        (List.Perm.refl (ss.filter fun s => !(decide (s.id ∈ used))))
      have h3 := h1.trans h2
      exact h3.trans List.perm_middle.symm

/-- The empty state satisfies the placement invariant. -/
theorem usedInv_nil (students : List Student) : UsedInv students ([], []) :=
  ⟨by simp, by simp, List.nodup_nil⟩

/-- Appending a fresh roster student preserves the placement invariant. -/
theorem usedInv_append {students : List Student} {st : List Student × List String}
    (hinv : UsedInv students st) {s : Student} (hs : s ∈ students) (hnot : s.id ∉ st.2) :
    UsedInv students (st.1 ++ [s], st.2 ++ [s.id]) := by
  obtain ⟨h1, h2, h3⟩ := hinv
  refine ⟨?_, ?_, ?_⟩
  · rw [List.map_append]
    exact h1.append (List.Perm.refl _)
  · intro x hx
    rcases List.mem_append.mp hx with h | h
    · exact h2 x h
    · rw [List.mem_singleton] at h
      rwa [h]
  · rw [List.nodup_append]
    refine ⟨h3, List.nodup_singleton _, fun x hx hmem => ?_⟩
    rw [List.mem_singleton] at hmem
    exact hnot (hmem ▸ hx)

/-- Inserting a fresh roster student at any valid index preserves the
placement invariant. -/
theorem usedInv_insertIdx {students : List Student} {st : List Student × List String}
    (hinv : UsedInv students st) {s : Student} (hs : s ∈ students) (hnot : s.id ∉ st.2)
    {n : Nat} (hn : n ≤ st.1.length) :
    UsedInv students (st.1.insertIdx n s, st.2 ++ [s.id]) := by
  obtain ⟨h1, h2, h3⟩ := hinv
  have hperm : List.Perm (st.1.insertIdx n s) (s :: st.1) := List.perm_insertIdx s st.1 hn
  refine ⟨?_, ?_, ?_⟩
  · have hA : List.Perm (st.2 ++ [s.id]) (s.id :: st.2) := List.perm_append_singleton _ _
    have hB : List.Perm (s.id :: st.2) (s.id :: st.1.map Student.id) := h1.cons _
    have hC : List.Perm ((s :: st.1).map Student.id) ((st.1.insertIdx n s).map Student.id) :=
      (hperm.map _).symm
    exact (hA.trans hB).trans hC
  · intro x hx
    rcases List.mem_cons.mp (hperm.mem_iff.mp hx) with h | h
    · rwa [h]
    · exact h2 x h
  · rw [List.nodup_append]
    refine ⟨h3, List.nodup_singleton _, fun x hx hmem => ?_⟩
    rw [List.mem_singleton] at hmem
    exact hnot (hmem ▸ hx)

/-- Under the placement invariant, the arranged prefix is a permutation of
the roster's used-id filter. -/
theorem usedInv_perm_filter {students : List Student} {st : List Student × List String}
    (hids : (students.map Student.id).Nodup) (hinv : UsedInv students st) :
    List.Perm st.1 (students.filter fun s => decide (s.id ∈ st.2)) := by
  obtain ⟨h1, h2, h3⟩ := hinv
  have hstu : students.Nodup := List.Nodup.of_map _ hids
  have hnd1 : st.1.Nodup := List.Nodup.of_map Student.id (h1.nodup_iff.mp h3)
  have hnd2 : (students.filter fun s => decide (s.id ∈ st.2)).Nodup := hstu.filter _
  rw [List.perm_ext_iff_of_nodup hnd1 hnd2]
  intro x
  simp only [List.mem_filter, decide_eq_true_eq]
  constructor
  · intro hx
    exact ⟨h2 x hx, h1.mem_iff.mpr (List.mem_map_of_mem Student.id hx)⟩
  · rintro ⟨hxs, hxid⟩
    obtain ⟨y, hy, hyid⟩ := List.mem_map.mp (h1.mem_iff.mp hxid)
    have hyx : y = x := List.inj_on_of_nodup_map hids (h2 y hy) hxs hyid
    rwa [← hyx]

/-- Setting index `k` to `a` and re-consing the old occupant permutes the
list with `a` consed on. -/
theorem set_perm_cons {α : Type} : ∀ (l : List α) (k : Nat) (a b : α),
    l[k]? = some b → List.Perm (b :: l.set k a) (a :: l)
  | [], k, a, b, h => by simp at h
  | y :: t, 0, a, b, h => by
    have hb : y = b := by simpa using h
    rw [List.set_cons_zero, ← hb]
    exact List.Perm.swap a y t
  | y :: t, k + 1, a, b, h => by
    rw [List.getElem?_cons_succ] at h
    rw [List.set_cons_succ]
    exact ((List.Perm.swap y b _).trans ((set_perm_cons t k a b h).cons y)).trans
      (List.Perm.swap a y t)

/-- Setting an index to the value it already holds is the identity. -/
theorem set_self_of_getElem {α : Type} (l : List α) (i : Nat) (a : α) (h : l[i]? = some a) :
    l.set i a = l := by
  have hi : i < l.length := by
    by_contra hli
    rw [List.getElem?_eq_none (Nat.le_of_not_lt hli)] at h
    exact Option.noConfusion h
  apply List.ext_getElem?
  intro k
  by_cases hk : i = k
  · subst hk
    rw [List.getElem?_set_self hi]
    exact h.symm
  · rw [List.getElem?_set_ne hk]

/-- A JS destructuring swap permutes the array. -/
theorem swapIdx_perm (l : List Student) (i j : Nat) : List.Perm (swapIdx l i j) l := by
  unfold swapIdx
  rcases hi : l[i]? with _ | a
  · exact List.Perm.refl l
  rcases hj : l[j]? with _ | b
  · exact List.Perm.refl l
  by_cases hij : i = j
  · subst hij
    rw [hi] at hj
    injection hj with hab
    subst hab
    show List.Perm ((l.set i a).set i a) l
    rw [List.set_set, set_self_of_getElem l i a hi]
  · have hj2 : (l.set i b)[j]? = some b := by
      rw [List.getElem?_set_ne hij]
      exact hj
    have h1 := set_perm_cons l i b a hi
    have h2 := set_perm_cons (l.set i b) j a b hj2
    exact (h2.trans h1).cons_inv

/-- The Fisher-Yates loop only permutes. -/
theorem fisherYatesAux_perm (rand : Nat → Nat) : ∀ (i : Nat) (l : List Student),
    List.Perm (fisherYatesAux rand i l) l
  | 0, l => List.Perm.refl l
  | i + 1, l =>
    (fisherYatesAux_perm rand i _).trans (swapIdx_perm l (i + 1) (rand (i + 1) % (i + 2)))

/-- `generateRandomArrangement` returns a permutation of the roster for
every entropy oracle. -/
theorem generateRandomArrangement_perm (rand : Nat → Nat) (students : List Student) :
    List.Perm (generateRandomArrangement rand students) students :=
  fisherYatesAux_perm rand _ students

/-- Collecting `arrangement[i].id` over the seat indices yields the ids of
the truncated arrangement. -/
theorem filterMap_range_map {α β : Type} (l : List α) (f : α → β) (n : Nat) :
    (List.range n).filterMap (fun i => (l[i]?).map f) = (l.take n).map f := by
  induction n with
  | zero => simp
  | succ k ih =>
    rw [List.range_succ, List.filterMap_append, ih, List.take_succ, List.map_append]
    congr 1
    rcases h : l[k]? with _ | a
    · simp [h]
    · simp [h]

/-- The skill-clustering strategy permutes a well-typed roster. -/
theorem skillClustering_perm (students : List Student)
    (hwt : ∀ s ∈ students,
      s.skillLevel ∈ (["beginner", "intermediate", "advanced"] : List String)) :
    List.Perm (generateSkillClusteringArrangement students) students := by
  unfold generateSkillClusteringArrangement
  exact three_bucket_perm students hwt

/-- The attention-zone strategy permutes any roster. -/
theorem attentionZone_perm (students : List Student) (totalSeats : Nat) :
    List.Perm (generateAttentionZoneArrangement students totalSeats) students := by
  simp only [generateAttentionZoneArrangement]
  have hothers : students.filter (fun s => !(decide (s ∈ students.filter fun s =>
        decide (s.skillLevel = "beginner") ||
        jsIncludes (jsToLower s.notes) "attention" ||
        jsIncludes (jsToLower s.notes) "support"))) =
      students.filter (fun s => !(decide (s.skillLevel = "beginner") ||
        jsIncludes (jsToLower s.notes) "attention" ||
        jsIncludes (jsToLower s.notes) "support")) := by
    apply List.filter_congr
    intro x hx
    simp [List.mem_filter, hx]
  rw [hothers]
  rw [List.append_assoc]
  have hADV : List.Perm
      ((students.filter (fun s => !(decide (s.skillLevel = "beginner") ||
          jsIncludes (jsToLower s.notes) "attention" ||
          jsIncludes (jsToLower s.notes) "support"))).filter
            (fun s => !(decide (s.skillLevel = "advanced"))) ++
        (students.filter (fun s => !(decide (s.skillLevel = "beginner") ||
          jsIncludes (jsToLower s.notes) "attention" ||
          jsIncludes (jsToLower s.notes) "support"))).filter
            (fun s => decide (s.skillLevel = "advanced")))
      (students.filter (fun s => !(decide (s.skillLevel = "beginner") ||
        jsIncludes (jsToLower s.notes) "attention" ||
        jsIncludes (jsToLower s.notes) "support"))) :=
    List.perm_append_comm.trans (List.filter_append_perm _ _)
  exact ((List.Perm.refl _).append hADV).trans (List.filter_append_perm _ students)

/-- One conditional push appends a sublist of the candidate singleton. -/
theorem pushIfPlaceable_shape (o : Option Student) (acc : List Student) :
    ∃ t, pushIfPlaceable o acc = acc ++ t ∧ List.Sublist t o.toList := by
  cases o with
  | none => exact ⟨[], by simp [pushIfPlaceable], by simp⟩
  | some s =>
    by_cases hc : canPlaceStudent s acc = true
    · exact ⟨[s], by simp [pushIfPlaceable, hc], by simp⟩
    · refine ⟨[], by simp [pushIfPlaceable, hc], by simp⟩

/-- The round-robin phase of mixed-ability picks a sublist of the
index-interleaved buckets. -/
theorem mixedPhaseOne_sublist (beginners intermediate advanced : List Student) :
    List.Sublist (mixedPhaseOne beginners intermediate advanced)
      ((List.range (max (max beginners.length intermediate.length) advanced.length)).flatMap
        fun i => (advanced[i]?).toList ++ (beginners[i]?).toList ++ (intermediate[i]?).toList) := by
  have hstep : ∀ (acc : List Student) (i : Nat), ∃ t,
      pushIfPlaceable intermediate[i]?
          (pushIfPlaceable beginners[i]? (pushIfPlaceable advanced[i]? acc)) = acc ++ t ∧
      List.Sublist t
        ((advanced[i]?).toList ++ (beginners[i]?).toList ++ (intermediate[i]?).toList) := by
    intro acc i
    obtain ⟨t1, e1, s1⟩ := pushIfPlaceable_shape advanced[i]? acc
    obtain ⟨t2, e2, s2⟩ := pushIfPlaceable_shape beginners[i]? (pushIfPlaceable advanced[i]? acc)
    obtain ⟨t3, e3, s3⟩ := pushIfPlaceable_shape intermediate[i]?
      (pushIfPlaceable beginners[i]? (pushIfPlaceable advanced[i]? acc))
    refine ⟨t1 ++ t2 ++ t3, ?_, (s1.append s2).append s3⟩
    rw [e3, e2, e1]
    simp [List.append_assoc]
  obtain ⟨t, ht, hs⟩ := foldl_append_sublist hstep
    (List.range (max (max beginners.length intermediate.length) advanced.length)) []
  have : mixedPhaseOne beginners intermediate advanced = t := by
    unfold mixedPhaseOne
    rw [ht]
    simp
  rw [this]
  exact hs

/-- The mixed-ability core: round-robin then clean-up permutes the
three-bucket concatenation, for abstract buckets. -/
theorem mixed_abstract_perm (students B I A : List Student)
    (hall : List.Perm (B ++ I ++ A) students) (hstu : students.Nodup) :
    List.Perm (addMissing (mixedPhaseOne B I A) (B ++ I ++ A)) students := by
  have hallnd : (B ++ I ++ A).Nodup := hall.nodup_iff.mpr hstu
  have hsub := mixedPhaseOne_sublist B I A
  have hinterleave := flatMap_three_perm
    (List.range (max (max B.length I.length) A.length))
    (fun i => (A[i]?).toList) (fun i => (B[i]?).toList) (fun i => (I[i]?).toList)
  rw [flatMap_range_toList A (le_max_right _ _),
      flatMap_range_toList B (le_trans (le_max_left _ _) (le_max_left _ _)),
      flatMap_range_toList I (le_trans (le_max_right _ _) (le_max_left _ _))] at hinterleave
  have hABI : List.Perm (A ++ B ++ I) (B ++ I ++ A) := by
    rw [← Multiset.coe_eq_coe]
    simp only [← Multiset.coe_add]
    abel
  have hinterNodup := (hinterleave.trans hABI).nodup_iff.mpr hallnd
  have hmixNodup : (mixedPhaseOne B I A).Nodup := hinterNodup.sublist hsub
  have hmixSub : ∀ x ∈ mixedPhaseOne B I A, x ∈ B ++ I ++ A := fun x hx =>
    (hinterleave.trans hABI).mem_iff.mp (hsub.subset hx)
  exact (addMissing_perm hallnd hmixNodup hmixSub).trans hall

/-- The mixed-ability strategy permutes a well-typed roster with distinct
ids. -/
theorem mixedAbility_perm (students : List Student)
    (hids : (students.map Student.id).Nodup)
    (hwt : ∀ s ∈ students,
      s.skillLevel ∈ (["beginner", "intermediate", "advanced"] : List String)) :
    List.Perm (generateMixedAbilityArrangement students) students := by
  unfold generateMixedAbilityArrangement
  exact mixed_abstract_perm students _ _ _ (three_bucket_perm students hwt)
    (List.Nodup.of_map _ hids)

/-- `addToLanguageGroup` keeps every filed student inside the roster. -/
theorem addToLanguageGroup_mem {students : List Student}
    {groups : List (String × List Student)} {language : String} {student : Student}
    (hg : ∀ g ∈ groups, ∀ s ∈ g.2, s ∈ students) (hstu : student ∈ students) :
    ∀ g ∈ addToLanguageGroup groups language student, ∀ s ∈ g.2, s ∈ students := by
  unfold addToLanguageGroup
  by_cases hex : groups.any (fun g => decide (g.1 = language)) = true
  · rw [if_pos hex]
    intro g hgmem s hs
    obtain ⟨g0, hg0, hfg⟩ := List.mem_map.mp hgmem
    by_cases hlang : g0.1 = language
    · rw [if_pos hlang] at hfg
      rw [← hfg] at hs
      rcases List.mem_append.mp hs with h | h
      · exact hg g0 hg0 s h
      · rw [List.mem_singleton] at h
        rwa [h]
    · rw [if_neg hlang] at hfg
      rw [← hfg] at hs
      exact hg g0 hg0 s hs
  · rw [if_neg hex]
    intro g hgmem s hs
    rcases List.mem_append.mp hgmem with h | h
    · exact hg g h s hs
    · rw [List.mem_singleton] at h
      rw [h] at hs
      rw [List.mem_singleton] at hs
      rwa [hs]

/-- Filing one student under a list of languages keeps every filed student
inside the roster. -/
theorem langFoldList_mem {students : List Student} {student : Student}
    (hstu : student ∈ students) :
    ∀ (langs : List String) (groups : List (String × List Student)),
      (∀ g ∈ groups, ∀ s ∈ g.2, s ∈ students) →
      ∀ g ∈ langs.foldl (fun gs language => addToLanguageGroup gs language student) groups,
        ∀ s ∈ g.2, s ∈ students
  | [], groups, hg => hg
  | lg :: lgs, groups, hg => by
    rw [List.foldl_cons]
    exact langFoldList_mem hstu lgs _ (addToLanguageGroup_mem hg hstu)

/-- Every student filed in `languageGroups` comes from the roster. -/
theorem languageGroups_mem (students : List Student) :
    ∀ g ∈ languageGroups students, ∀ s ∈ g.2, s ∈ students := by
  unfold languageGroups
  suffices h : ∀ (l : List Student), (∀ x ∈ l, x ∈ students) →
      ∀ (groups : List (String × List Student)), (∀ g ∈ groups, ∀ s ∈ g.2, s ∈ students) →
      ∀ g ∈ l.foldl (fun groups student =>
          (student.primaryLanguage :: student.secondaryLanguages).foldl
            (fun gs language => addToLanguageGroup gs language student) groups) groups,
        ∀ s ∈ g.2, s ∈ students by
    exact h students (fun x hx => hx) [] (by simp)
  intro l
  induction l with
  | nil => exact fun _ groups hg => hg
  | cons x xs ih =>
    intro hl groups hg
    rw [List.foldl_cons]
    exact ih (fun y hy => hl y (List.mem_cons_of_mem x hy)) _
      (langFoldList_mem (hl x (List.mem_cons_self x xs)) _ groups hg)

/-- The guarded-append fold over one language's speakers preserves the
placement invariant. -/
theorem langPlaceFold_inv {students : List Student} :
    ∀ (l : List Student), (∀ x ∈ l, x ∈ students) →
    ∀ (st : List Student × List String), UsedInv students st →
      UsedInv students (l.foldl
        (fun st student =>
          if student.id ∉ st.2 ∧ canPlaceStudent student (jsSliceNeg 2 st.1) = true then
            (st.1 ++ [student], st.2 ++ [student.id])
          else st) st)
  | [], _, st, hst => hst
  | x :: xs, hl, st, hst => by
    rw [List.foldl_cons]
    apply langPlaceFold_inv xs (fun y hy => hl y (List.mem_cons_of_mem x hy))
    by_cases hc : x.id ∉ st.2 ∧ canPlaceStudent x (jsSliceNeg 2 st.1) = true
    · rw [if_pos hc]
      exact usedInv_append hst (hl x (List.mem_cons_self x xs)) hc.1
    · rw [if_neg hc]
      exact hst

/-- The group fold of language-support phase one preserves the placement
invariant. -/
theorem langGroupsFold_inv {students : List Student} :
    ∀ (groups : List (String × List Student)),
      (∀ g ∈ groups, ∀ s ∈ g.2, s ∈ students) →
    ∀ (st : List Student × List String), UsedInv students st →
      UsedInv students (groups.foldl
        (fun st g =>
          if 1 < g.2.length then
            g.2.foldl
              (fun st student =>
                if student.id ∉ st.2 ∧ canPlaceStudent student (jsSliceNeg 2 st.1) = true then
                  (st.1 ++ [student], st.2 ++ [student.id])
                else st) st
          else st) st)
  | [], _, st, hst => hst
  | g :: gs, hg, st, hst => by
    rw [List.foldl_cons]
    apply langGroupsFold_inv gs (fun q hq => hg q (List.mem_cons_of_mem g hq))
    by_cases hlen : 1 < g.2.length
    · rw [if_pos hlen]
      exact langPlaceFold_inv g.2 (hg g (List.mem_cons_self g gs)) st hst
    · rw [if_neg hlen]
      exact hst

/-- Language-support phase one satisfies the placement invariant. -/
theorem languagePhaseOne_inv (students : List Student) :
    UsedInv students (languagePhaseOne students) :=
  langGroupsFold_inv (languageGroups students) (languageGroups_mem students) ([], [])
    (usedInv_nil students)

/-- The language-support strategy permutes a roster with distinct ids. -/
theorem languageSupport_perm (students : List Student)
    (hids : (students.map Student.id).Nodup) :
    List.Perm (generateLanguageSupportArrangement students) students := by
  unfold generateLanguageSupportArrangement
  have h1 := placeRemaining_perm students (languagePhaseOne students).2 2
    (languagePhaseOne students).1
  have h2 := usedInv_perm_filter hids (languagePhaseOne_inv students)
  have h3 := h2.append (List.Perm.refl
    (students.filter fun s => !(decide (s.id ∈ (languagePhaseOne students).2))))
  have h4 := List.filter_append_perm
    (fun s => decide (s.id ∈ (languagePhaseOne students).2)) students
  exact (h1.trans h3).trans h4

/-- The partner-placement fold of the collaborative strategy preserves the
placement invariant. -/
theorem partnerFold_inv {students : List Student} {student : Student} :
    ∀ (names : List String) (st : List Student × List String), UsedInv students st →
      UsedInv students (names.foldl
        (fun st partnerName =>
          match students.find? (fun s =>
              decide (jsToLower s.name = jsToLower partnerName) &&
                !(decide (s.id ∈ st.2))) with
          | some partner =>
            if hasAvoidConflict student partner = false then
              (st.1 ++ [partner], st.2 ++ [partner.id])
            else st
          | none => st) st)
  | [], st, hst => hst
  | nm :: nms, st, hst => by
    rw [List.foldl_cons]
    apply partnerFold_inv nms
    rcases hfind : students.find? (fun s =>
        decide (jsToLower s.name = jsToLower nm) && !(decide (s.id ∈ st.2))) with _ | partner
    · simp only [hfind]
      exact hst
    · have hmem := List.mem_of_find?_eq_some hfind
      have hpred := List.find?_some hfind
      rw [Bool.and_eq_true] at hpred
      have hnot : partner.id ∉ st.2 := by
        have h2 := hpred.2
        simpa using h2
      simp only [hfind]
      by_cases hok : hasAvoidConflict student partner = false
      · rw [if_pos hok]
        exact usedInv_append hst hmem hnot
      · rw [if_neg hok]
        exact hst

/-- Collaborative phase one satisfies the placement invariant. -/
theorem collaborativePhaseOne_inv (students : List Student) :
    UsedInv students (collaborativePhaseOne students) := by
  unfold collaborativePhaseOne
  suffices h : ∀ (l : List Student), (∀ x ∈ l, x ∈ students) →
      ∀ (st : List Student × List String), UsedInv students st →
      UsedInv students (l.foldl
        (fun st student =>
          if student.id ∈ st.2 then st
          else if 0 < student.worksWellWith.length then
            student.worksWellWith.foldl
              (fun st partnerName =>
                match students.find? (fun s =>
                    decide (jsToLower s.name = jsToLower partnerName) &&
                      !(decide (s.id ∈ st.2))) with
                | some partner =>
                  if hasAvoidConflict student partner = false then
                    (st.1 ++ [partner], st.2 ++ [partner.id])
                  else st
                | none => st)
              (st.1 ++ [student], st.2 ++ [student.id])
          else st) st) by
    exact h students (fun x hx => hx) ([], []) (usedInv_nil students)
  intro l
  induction l with
  | nil => exact fun _ st hst => hst
  | cons x xs ih =>
    intro hl st hst
    rw [List.foldl_cons]
    apply ih (fun y hy => hl y (List.mem_cons_of_mem x hy))
    by_cases hused : x.id ∈ st.2
    · rw [if_pos hused]
      exact hst
    · rw [if_neg hused]
      by_cases hw : 0 < x.worksWellWith.length
      · rw [if_pos hw]
        exact partnerFold_inv x.worksWellWith _
          (usedInv_append hst (hl x (List.mem_cons_self x xs)) hused)
      · rw [if_neg hw]
        exact hst

/-- The collaborative-pairs strategy permutes a roster with distinct ids. -/
theorem collaborative_perm (students : List Student)
    (hids : (students.map Student.id).Nodup) :
    List.Perm (generateCollaborativeArrangement students) students := by
  unfold generateCollaborativeArrangement
  have h1 := placeRemaining_perm students (collaborativePhaseOne students).2 1
    (collaborativePhaseOne students).1
  have h2 := usedInv_perm_filter hids (collaborativePhaseOne_inv students)
  have h3 := h2.append (List.Perm.refl
    (students.filter fun s => !(decide (s.id ∈ (collaborativePhaseOne students).2))))
  have h4 := List.filter_append_perm
    (fun s => decide (s.id ∈ (collaborativePhaseOne students).2)) students
  exact (h1.trans h3).trans h4

/-- The head of a list is a member. -/
theorem mem_of_headQ {α : Type} {l : List α} {a : α} (h : l.head? = some a) : a ∈ l := by
  cases l with
  | nil => simp at h
  | cons x xs =>
    rw [List.head?_cons, Option.some.injEq] at h
    rw [← h]
    exact List.mem_cons_self x xs

/-- Behavior-management phase one preserves the placement invariant. -/
theorem behaviorPhaseOne_inv {students : List Student}
    (studentsWithoutConstraints : List Student)
    (hunc : ∀ x ∈ studentsWithoutConstraints, x ∈ students) :
    ∀ (l : List Student), (∀ x ∈ l, x ∈ students) →
    ∀ (st : List Student × List String), UsedInv students st →
      UsedInv students (l.foldl
        (fun st student =>
          if student.id ∈ st.2 then st
          else if canPlaceStudent student (jsSliceNeg 3 st.1) then
            let st1 := (st.1 ++ [student], st.2 ++ [student.id])
            let availableBuffers := studentsWithoutConstraints.filter fun s =>
              !(decide (s.id ∈ st1.2)) && canPlaceStudent s [student]
            match availableBuffers.head? with
            | some buffer => (st1.1 ++ [buffer], st1.2 ++ [buffer.id])
            | none => st1
          else st) st)
  | [], _, st, hst => hst
  | x :: xs, hl, st, hst => by
    rw [List.foldl_cons]
    apply behaviorPhaseOne_inv studentsWithoutConstraints hunc xs
      (fun y hy => hl y (List.mem_cons_of_mem x hy))
    by_cases hused : x.id ∈ st.2
    · rw [if_pos hused]
      exact hst
    · rw [if_neg hused]
      by_cases hcan : canPlaceStudent x (jsSliceNeg 3 st.1) = true
      · rw [if_pos hcan]
        have hst1 : UsedInv students (st.1 ++ [x], st.2 ++ [x.id]) :=
          usedInv_append hst (hl x (List.mem_cons_self x xs)) hused
        rcases hbuf : (studentsWithoutConstraints.filter fun s =>
            !(decide (s.id ∈ (st.1 ++ [x], st.2 ++ [x.id]).2)) &&
              canPlaceStudent s [x]).head? with _ | buffer
        · simp only [hbuf]
          exact hst1
        · simp only [hbuf]
          have hbmem := mem_of_headQ hbuf
          have hbfilter := List.mem_filter.mp hbmem
          rw [Bool.and_eq_true] at hbfilter
          have hbnot : buffer.id ∉ (st.2 ++ [x.id]) := by
            have h2 := hbfilter.2.1
            simpa using h2
          exact usedInv_append hst1 (hunc buffer hbfilter.1) hbnot
      · rw [if_neg hcan]
        exact hst

/-- Behavior-management phase two preserves the placement invariant. -/
theorem behaviorPhaseTwo_inv {students : List Student} :
    ∀ (l : List Student), (∀ x ∈ l, x ∈ students) →
    ∀ (st : List Student × List String), UsedInv students st →
      UsedInv students (behaviorPhaseTwo l st)
  | [], _, st, hst => hst
  | x :: xs, hl, st, hst => by
    unfold behaviorPhaseTwo
    rw [List.foldl_cons]
    have hrest := behaviorPhaseTwo_inv xs (fun y hy => hl y (List.mem_cons_of_mem x hy))
    unfold behaviorPhaseTwo at hrest
    apply hrest
    by_cases hused : x.id ∈ st.2
    · rw [if_pos hused]
      exact hst
    · rw [if_neg hused]
      exact usedInv_insertIdx hst (hl x (List.mem_cons_self x xs)) hused (Nat.sub_le _ _)

/-- The final append-the-rest fold gathers exactly the unused students. -/
theorem appendRemaining_perm (students : List Student) (used : List String) :
    ∀ arranged : List Student,
      List.Perm
        (students.foldl
          (fun arranged student =>
            if student.id ∈ used then arranged else arranged ++ [student]) arranged)
        (arranged ++ students.filter fun s => !(decide (s.id ∈ used))) := by
  induction students with
  | nil => intro arranged; simp
  | cons s ss ih =>
    intro arranged
    rw [List.foldl_cons, List.filter_cons]
    by_cases hs : s.id ∈ used
    · rw [if_pos hs]
      have hdrop : (!(decide (s.id ∈ used))) = false := by simp [hs]
      rw [hdrop, if_neg (by simp)]
      exact ih arranged
    · rw [if_neg hs]
      have hkeep : (!(decide (s.id ∈ used))) = true := by simp [hs]
      rw [hkeep, if_pos rfl]
      have h1 := ih (arranged ++ [s])
      have h2 := (List.perm_append_singleton s arranged).append
        (List.Perm.refl (ss.filter fun s => !(decide (s.id ∈ used))))
      exact (h1.trans h2).trans List.perm_middle.symm

/-- The behavior-management strategy permutes a roster with distinct ids. -/
theorem behavior_perm (students : List Student)
    (hids : (students.map Student.id).Nodup) (totalSeats : Nat) :
    List.Perm (generateBehaviorManagementArrangement students totalSeats) students := by
  unfold generateBehaviorManagementArrangement
  have hcon : ∀ x ∈ students.filter (fun s => decide (0 < s.avoidPairing.length)),
      x ∈ students := fun x hx => (List.mem_filter.mp hx).1
  have hunc : ∀ x ∈ students.filter (fun s => decide (s.avoidPairing.length = 0)),
      x ∈ students := fun x hx => (List.mem_filter.mp hx).1
  have hinv1 := behaviorPhaseOne_inv
    (students.filter (fun s => decide (s.avoidPairing.length = 0))) hunc
    (students.filter (fun s => decide (0 < s.avoidPairing.length))) hcon
    ([], []) (usedInv_nil students)
  have hinv2 := behaviorPhaseTwo_inv
    (students.filter (fun s => decide (0 < s.avoidPairing.length))) hcon _ hinv1
  have h1 := appendRemaining_perm students
    (behaviorPhaseTwo (students.filter (fun s => decide (0 < s.avoidPairing.length)))
      (behaviorPhaseOne (students.filter (fun s => decide (0 < s.avoidPairing.length)))
        (students.filter (fun s => decide (s.avoidPairing.length = 0))))).2
    (behaviorPhaseTwo (students.filter (fun s => decide (0 < s.avoidPairing.length)))
      (behaviorPhaseOne (students.filter (fun s => decide (0 < s.avoidPairing.length)))
        (students.filter (fun s => decide (s.avoidPairing.length = 0))))).1
  have h2 := usedInv_perm_filter hids hinv2
  have h3 := h2.append (List.Perm.refl (students.filter fun s =>
    !(decide (s.id ∈ (behaviorPhaseTwo
      (students.filter (fun s => decide (0 < s.avoidPairing.length)))
      (behaviorPhaseOne (students.filter (fun s => decide (0 < s.avoidPairing.length)))
        (students.filter (fun s => decide (s.avoidPairing.length = 0))))).2))))
  have h4 := List.filter_append_perm
    (fun s => decide (s.id ∈ (behaviorPhaseTwo
      (students.filter (fun s => decide (0 < s.avoidPairing.length)))
      (behaviorPhaseOne (students.filter (fun s => decide (0 < s.avoidPairing.length)))
        (students.filter (fun s => decide (s.avoidPairing.length = 0))))).2)) students
  exact (h1.trans h3).trans h4

/-- Every strategy branch of the dispatcher permutes a well-typed roster
with distinct ids, the random branch for every entropy oracle. -/
theorem generateArrangement_perm (students : List Student) (strategy : String)
    (totalSeats : Nat) (rand : Nat → Nat)
    (hids : (students.map Student.id).Nodup)
    (hwt : ∀ s ∈ students,
      s.skillLevel ∈ (["beginner", "intermediate", "advanced"] : List String)) :
    List.Perm (generateArrangement students strategy totalSeats rand) students := by
  unfold generateArrangement
  split_ifs
  · exact mixedAbility_perm students hids hwt
  · exact skillClustering_perm students hwt
  · exact languageSupport_perm students hids
  · exact collaborative_perm students hids
  · exact attentionZone_perm students totalSeats
  · exact behavior_perm students hids totalSeats
  · exact generateRandomArrangement_perm rand students

/-- C1: for every strategy string (the entropy oracle standing in for
`Math.random`), every `totalSeats`, and every non-empty well-typed roster
with pairwise-distinct ids, the chart has length exactly `totalSeats`; its
non-null studentIds are exactly the ids of the strategy's arrangement
truncated to the first `totalSeats` entries — with no id repeated — and the
arrangement itself is a permutation of the roster, so no student is dropped
except by that truncation. -/
theorem c1_totality (students : List Student) (strategy : String) (totalSeats : Nat)
    (rand : Nat → Nat) (hne : students ≠ [])
    (hids : (students.map Student.id).Nodup)
    (hwt : ∀ s ∈ students,
      s.skillLevel ∈ (["beginner", "intermediate", "advanced"] : List String)) :
    (generateSeatingChart students strategy totalSeats rand).length = totalSeats ∧
    (generateSeatingChart students strategy totalSeats rand).filterMap
        SeatAssignment.studentId =
      ((generateArrangement students strategy totalSeats rand).take totalSeats).map
        Student.id ∧
    ((generateSeatingChart students strategy totalSeats rand).filterMap
        SeatAssignment.studentId).Nodup ∧
    List.Perm (generateArrangement students strategy totalSeats rand) students := by
  have hperm := generateArrangement_perm students strategy totalSeats rand hids hwt
  have hne2 : ¬(students.length = 0) := fun h => hne (List.length_eq_zero.mp h)
  have hlen : (generateSeatingChart students strategy totalSeats rand).length = totalSeats := by
    unfold generateSeatingChart
    split_ifs <;> simp
  have hfm : (generateSeatingChart students strategy totalSeats rand).filterMap
      SeatAssignment.studentId =
      ((generateArrangement students strategy totalSeats rand).take totalSeats).map
        Student.id := by
    simp only [generateSeatingChart]
    rw [if_neg hne2]
    rw [List.filterMap_map]
    exact filterMap_range_map (generateArrangement students strategy totalSeats rand)
      Student.id totalSeats
  refine ⟨hlen, hfm, ?_, hperm⟩
  rw [hfm]
  have hidsarr : ((generateArrangement students strategy totalSeats rand).map
      Student.id).Nodup := ((hperm.map Student.id).nodup_iff).mpr hids
  have htake : List.Sublist
      (((generateArrangement students strategy totalSeats rand).take totalSeats).map
        Student.id)
      ((generateArrangement students strategy totalSeats rand).map Student.id) :=
    (List.take_sublist _ _).map _
  exact hidsarr.sublist htake

/-- C1 witness: the theorem applied to a concrete two-student roster with
the skill-clustering strategy, three seats and a concrete oracle. -/
theorem c1_totality_witness :
    (c1exStudents ≠ [] ∧ (c1exStudents.map Student.id).Nodup ∧
      ∀ s ∈ c1exStudents,
        s.skillLevel ∈ (["beginner", "intermediate", "advanced"] : List String)) ∧
    (generateSeatingChart c1exStudents "skill-clustering" 3 (fun k => k)).length = 3 ∧
    List.Perm (generateArrangement c1exStudents "skill-clustering" 3 (fun k => k))
      c1exStudents := by
  refine ⟨⟨by decide, by decide, by decide⟩, ?_, ?_⟩
  · exact (c1_totality c1exStudents "skill-clustering" 3 (fun k => k) (by decide) (by decide)
      (by decide)).1
  · exact (c1_totality c1exStudents "skill-clustering" 3 (fun k => k) (by decide) (by decide)
      (by decide)).2.2.2

/-- C6: every strategy except random ignores the entropy oracle — two
invocations on the same inputs agree, whatever entropy each draws. -/
theorem c6_determinism (students : List Student) (strategy : String) (totalSeats : Nat)
    (rand1 rand2 : Nat → Nat)
    (hstrat : strategy ∈ (["mixed-ability", "skill-clustering", "language-support",
      "collaborative-pairs", "attention-zone", "behavior-management"] : List String)) :
    generateSeatingChart students strategy totalSeats rand1 =
      generateSeatingChart students strategy totalSeats rand2 := by
  have harr : generateArrangement students strategy totalSeats rand1 =
      generateArrangement students strategy totalSeats rand2 := by
    fin_cases hstrat <;> rfl
  simp only [generateSeatingChart, harr]

/-- C6 witness: the mixed-ability strategy on a concrete roster under two
different entropy oracles. -/
theorem c6_determinism_witness :
    ("mixed-ability" ∈ (["mixed-ability", "skill-clustering", "language-support",
      "collaborative-pairs", "attention-zone", "behavior-management"] : List String)) ∧
    generateSeatingChart c6exStudents "mixed-ability" 2 (fun _ => 0) =
      generateSeatingChart c6exStudents "mixed-ability" 2 (fun k => k + 7) :=
  ⟨by decide,
   c6_determinism c6exStudents "mixed-ability" 2 (fun _ => 0) (fun k => k + 7) (by decide)⟩

/-- Two different skill levels never survive the same filter chain. -/
theorem filter_level_pure (students : List Student) (a b : String) (hab : ¬ b = a) :
    (students.filter fun s => decide (s.skillLevel = a)).filter
      (fun s => decide (s.skillLevel = b)) = [] := by
  rw [List.filter_eq_nil_iff]
  intro s hs
  have h2 := (List.mem_filter.mp hs).2
  simp only [decide_eq_true_eq] at h2 ⊢
  rw [h2]
  exact fun h => hab h.symm

/-- Filtering a bucket by its own level is the identity. -/
theorem filter_level_same (students : List Student) (a : String) :
    (students.filter fun s => decide (s.skillLevel = a)).filter
      (fun s => decide (s.skillLevel = a)) =
      students.filter fun s => decide (s.skillLevel = a) :=
  List.filter_eq_self.mpr fun x hx => (List.mem_filter.mp hx).2

/-- C7: the skill-clustering strategy returns exactly the beginner bucket,
then the intermediate bucket, then the advanced bucket, each preserving the
roster's relative order (its level-filtered sublists equal the roster's
level filters, and the whole output is the concatenation of its own three
level filters in that order), and it applies no constraint checking — the
output is pointwise independent of every student's avoid-pairing list. -/
theorem c7_skill_clustering (students : List Student) :
    (generateSkillClusteringArrangement students).filter
        (fun s => decide (s.skillLevel = "beginner")) =
      students.filter (fun s => decide (s.skillLevel = "beginner")) ∧
    (generateSkillClusteringArrangement students).filter
        (fun s => decide (s.skillLevel = "intermediate")) =
      students.filter (fun s => decide (s.skillLevel = "intermediate")) ∧
    (generateSkillClusteringArrangement students).filter
        (fun s => decide (s.skillLevel = "advanced")) =
      students.filter (fun s => decide (s.skillLevel = "advanced")) ∧
    generateSkillClusteringArrangement students =
      (generateSkillClusteringArrangement students).filter
          (fun s => decide (s.skillLevel = "beginner")) ++
        (generateSkillClusteringArrangement students).filter
          (fun s => decide (s.skillLevel = "intermediate")) ++
        (generateSkillClusteringArrangement students).filter
          (fun s => decide (s.skillLevel = "advanced")) ∧
    (∀ f : Student → List String,
      generateSkillClusteringArrangement
          (students.map fun s => { s with avoidPairing := f s }) =
        (generateSkillClusteringArrangement students).map
          fun s => { s with avoidPairing := f s }) := by
  have hB : (generateSkillClusteringArrangement students).filter
      (fun s => decide (s.skillLevel = "beginner")) =
      students.filter (fun s => decide (s.skillLevel = "beginner")) := by
    simp only [generateSkillClusteringArrangement, List.filter_append]
    rw [filter_level_same, filter_level_pure _ _ _ (by decide),
      filter_level_pure _ _ _ (by decide)]
    simp
  have hI : (generateSkillClusteringArrangement students).filter
      (fun s => decide (s.skillLevel = "intermediate")) =
      students.filter (fun s => decide (s.skillLevel = "intermediate")) := by
    simp only [generateSkillClusteringArrangement, List.filter_append]
    rw [filter_level_same, filter_level_pure _ _ _ (by decide),
      filter_level_pure _ _ _ (by decide)]
    simp
  have hA : (generateSkillClusteringArrangement students).filter
      (fun s => decide (s.skillLevel = "advanced")) =
      students.filter (fun s => decide (s.skillLevel = "advanced")) := by
    simp only [generateSkillClusteringArrangement, List.filter_append]
    rw [filter_level_same, filter_level_pure _ _ _ (by decide),
      filter_level_pure _ _ _ (by decide)]
    simp
  refine ⟨hB, hI, hA, ?_, ?_⟩
  · rw [hB, hI, hA]
    rfl
  · intro f
    simp [generateSkillClusteringArrangement, List.filter_map, Function.comp_def]

/-- The clamped y coordinate of the arc layouts is nonnegative. -/
theorem max_120_nonneg (y0 : ℝ) : (0:ℝ) ≤ max y0 120 :=
  le_trans (by norm_num) (le_max_right y0 120)

/-- A center-plus-cosine abscissa is nonnegative when the radius fits. -/
theorem cos_coord_nonneg (c r a : ℝ) (hc : 0 ≤ c - r) (hr : 0 ≤ r) :
    0 ≤ c + Real.cos a * r := by
  nlinarith [Real.neg_one_le_cos a, Real.cos_le_one a]

open scoped Classical in
/-- The teacher-desk adjustment keeps a nonnegative abscissa nonnegative. -/
theorem ite_overlap_x_nonneg (x y : ℝ) (hx : 0 ≤ x) :
    (0:ℝ) ≤ if isOverlappingTeacherDesk x y then (120:ℝ) else x := by
  split_ifs
  · norm_num
  · exact hx

/-- A constant-plus-scaled-cast sum is nonnegative. -/
theorem cast_mul_nonneg_add (c k : ℝ) (n : Nat) (hc : 0 ≤ c) (hk : 0 ≤ k) :
    0 ≤ c + (n : ℝ) * k := by positivity

/-- A scaled-cast-plus-constant sum is nonnegative. -/
theorem cast_mul_add_nonneg (k c : ℝ) (n : Nat) (hc : 0 ≤ c) (hk : 0 ≤ k) :
    0 ≤ (n : ℝ) * k + c := by positivity

/-- A two-term scaled-cast sum with constant is nonnegative. -/
theorem cast_mul_add_nonneg2 (c k1 k2 : ℝ) (n1 n2 : Nat)
    (hc : 0 ≤ c) (h1 : 0 ≤ k1) (h2 : 0 ≤ k2) :
    0 ≤ c + (n1 : ℝ) * k1 + (n2 : ℝ) * k2 := by positivity

/-- Seat positions produced as a map with identity indices. -/
theorem map_position_range {n : Nat} {f : Nat → SeatPosition}
    (hf : ∀ i, (f i).position = i) :
    ((List.range n).map f).map SeatPosition.position = List.range n := by
  rw [List.map_map]
  have hcmp : SeatPosition.position ∘ f = fun i => i := funext fun i => hf i
  rw [hcmp]
  exact List.map_id' (List.range n)

/-- Seat positions produced as a map with offset indices. -/
theorem map_position_range_add {n k : Nat} {f : Nat → SeatPosition}
    (hf : ∀ i, (f i).position = k + i) :
    ((List.range n).map f).map SeatPosition.position = List.range' k n := by
  rw [List.map_map, List.range'_eq_map_range]
  have hcmp : SeatPosition.position ∘ f = fun i => k + i := funext fun i => hf i
  rw [hcmp]

/-- The traditional-rows geometry: exact length, contiguous indices,
nonnegative coordinates, for every seat count. -/
theorem traditionalRows_spec (seatCount : Nat) :
    (traditionalRowsPositions seatCount).length = seatCount ∧
    (traditionalRowsPositions seatCount).map SeatPosition.position = List.range seatCount ∧
    ∀ sp ∈ traditionalRowsPositions seatCount, 0 ≤ sp.x ∧ 0 ≤ sp.y := by
  refine ⟨by simp [traditionalRowsPositions], ?_, ?_⟩
  · simp only [traditionalRowsPositions]
    exact map_position_range fun i => rfl
  · intro sp hsp
    simp only [traditionalRowsPositions, List.mem_map, List.mem_range] at hsp
    obtain ⟨p, hp, rfl⟩ := hsp
    exact ⟨cast_mul_nonneg_add _ _ _ (by norm_num) (by norm_num),
      cast_mul_add_nonneg _ _ _ (by norm_num) (by norm_num)⟩

/-- One stadium row: exact length, contiguous indices from `firstPos`,
nonnegative coordinates when the row has at most 7 seats. -/
theorem stadiumRow_spec (row firstPos k : Nat) (hk : k ≤ 7) :
    (stadiumRow row firstPos k).length = k ∧
    (stadiumRow row firstPos k).map SeatPosition.position = List.range' firstPos k ∧
    ∀ sp ∈ stadiumRow row firstPos k, 0 ≤ sp.x ∧ 0 ≤ sp.y := by
  refine ⟨by simp [stadiumRow], ?_, ?_⟩
  · simp only [stadiumRow]
    exact map_position_range_add fun i => rfl
  · intro sp hsp
    simp only [stadiumRow, List.mem_map, List.mem_range] at hsp
    obtain ⟨col, hcol, rfl⟩ := hsp
    constructor
    · show (0:ℝ) ≤ (900 - (k : ℝ) * 120) / 2 + (col : ℝ) * 120 +
        (if 0 < row then |(col : ℝ) - ((k : ℝ) - 1) / 2| * ((row : ℝ) * 20) else 0)
      have hk7 : ((k : ℝ)) ≤ 7 := by exact_mod_cast hk
      have hc : (0:ℝ) ≤ (col : ℝ) := Nat.cast_nonneg _
      have hprod : (0:ℝ) ≤ |(col : ℝ) - ((k : ℝ) - 1) / 2| * ((row : ℝ) * 20) :=
        mul_nonneg (abs_nonneg _) (by positivity)
      split_ifs
      · linarith
      · linarith
    · show (0:ℝ) ≤ (row : ℝ) * 120 + 140
      positivity

/-- The stadium loop: its output length is the remaining-seat bound, its
indices are contiguous from `pos`, its coordinates nonnegative. -/
theorem stadiumLoop_spec : ∀ (rs : List Nat) (row pos seatCount : Nat),
    (∀ r ∈ rs, r ≤ 7) →
    (stadiumLoop rs row pos seatCount).length = min rs.sum (seatCount - pos) ∧
    (stadiumLoop rs row pos seatCount).map SeatPosition.position =
      List.range' pos (min rs.sum (seatCount - pos)) ∧
    ∀ sp ∈ stadiumLoop rs row pos seatCount, 0 ≤ sp.x ∧ 0 ≤ sp.y
  | [], row, pos, seatCount, _ => by
    refine ⟨by simp [stadiumLoop], by simp [stadiumLoop], by simp [stadiumLoop]⟩
  | rs0 :: rest, row, pos, seatCount, hrs => by
    have hrow := stadiumRow_spec row pos (min rs0 (seatCount - pos))
      (le_trans (min_le_left _ _) (hrs rs0 (List.mem_cons_self _ _)))
    have hrest := stadiumLoop_spec rest (row + 1) (pos + min rs0 (seatCount - pos)) seatCount
      (fun r hr => hrs r (List.mem_cons_of_mem _ hr))
    unfold stadiumLoop
    by_cases hpos : pos < seatCount
    · rw [if_pos hpos]
      refine ⟨?_, ?_, ?_⟩
      · rw [List.length_append, hrow.1, hrest.1, List.sum_cons]
        omega
      · rw [List.map_append, hrow.2.1, hrest.2.1]
        have hmins : min rest.sum (seatCount - (pos + min rs0 (seatCount - pos))) =
            min (rs0 :: rest).sum (seatCount - pos) - min rs0 (seatCount - pos) := by
          rw [List.sum_cons]
          omega
        rw [hmins]
        have hap := List.range'_append pos (min rs0 (seatCount - pos))
          (min (rs0 :: rest).sum (seatCount - pos) - min rs0 (seatCount - pos)) 1
        rw [one_mul] at hap
        rw [hap]
        congr 1
        rw [List.sum_cons]
        omega
      · intro sp hsp
        rcases List.mem_append.mp hsp with h | h
        · exact hrow.2.2 sp h
        · exact hrest.2.2 sp h
    · rw [if_neg hpos]
      have h0 : seatCount - pos = 0 := by omega
      refine ⟨by simp [h0], by simp [h0], by simp⟩

/-- The stadium geometry is exact for up to its 24 hardcoded seats. -/
theorem stadiumPositions_spec (seatCount : Nat) (h24 : seatCount ≤ 24) :
    (stadiumPositions seatCount).length = seatCount ∧
    (stadiumPositions seatCount).map SeatPosition.position = List.range seatCount ∧
    ∀ sp ∈ stadiumPositions seatCount, 0 ≤ sp.x ∧ 0 ≤ sp.y := by
  have h := stadiumLoop_spec stadiumRowSeats 0 0 seatCount (by
    intro r hr
    simp only [stadiumRowSeats, List.mem_cons, List.not_mem_nil, or_false] at hr
    rcases hr with h | h | h | h <;> omega)
  have hsum : stadiumRowSeats.sum = 24 := by simp [stadiumRowSeats]
  have hmin : min stadiumRowSeats.sum (seatCount - 0) = seatCount := by
    rw [hsum]
    omega
  rw [hmin] at h
  unfold stadiumPositions
  refine ⟨h.1, ?_, h.2.2⟩
  rw [h.2.1]
  exact (List.range_eq_range' seatCount).symm

/-- The horseshoe geometry: exact length, contiguous indices, nonnegative
coordinates, for every seat count. -/
theorem horseshoe_spec (seatCount : Nat) :
    (horseshoePositions seatCount).length = seatCount ∧
    (horseshoePositions seatCount).map SeatPosition.position = List.range seatCount ∧
    ∀ sp ∈ horseshoePositions seatCount, 0 ≤ sp.x ∧ 0 ≤ sp.y := by
  refine ⟨by simp [horseshoePositions], ?_, ?_⟩
  · simp only [horseshoePositions]
    exact map_position_range fun i => rfl
  · intro sp hsp
    simp only [horseshoePositions, List.mem_map, List.mem_range] at hsp
    obtain ⟨i, hi, rfl⟩ := hsp
    exact ⟨ite_overlap_x_nonneg _ _ (cos_coord_nonneg 400 180 _ (by norm_num) (by norm_num)),
      max_120_nonneg _⟩

/-- The circle geometry: exact length, contiguous indices, nonnegative
coordinates, for every seat count. -/
theorem circle_spec (seatCount : Nat) :
    (circlePositions seatCount).length = seatCount ∧
    (circlePositions seatCount).map SeatPosition.position = List.range seatCount ∧
    ∀ sp ∈ circlePositions seatCount, 0 ≤ sp.x ∧ 0 ≤ sp.y := by
  refine ⟨by simp [circlePositions], ?_, ?_⟩
  · simp only [circlePositions]
    exact map_position_range fun i => rfl
  · intro sp hsp
    simp only [circlePositions, List.mem_map, List.mem_range] at hsp
    obtain ⟨i, hi, rfl⟩ := hsp
    exact ⟨ite_overlap_x_nonneg _ _ (cos_coord_nonneg 400 160 _ (by norm_num) (by norm_num)),
      max_120_nonneg _⟩

/-- Gluing two index-contiguous seat blocks yields contiguous indices. -/
theorem append_positions_range (n m sc : Nat) (A B : List SeatPosition)
    (hA : A.map SeatPosition.position = List.range n)
    (hB : B.map SeatPosition.position = List.range' n m)
    (hnm : n + m = sc) :
    (A ++ B).map SeatPosition.position = List.range sc := by
  rw [List.map_append, hA, hB, List.range_eq_range']
  have hap := List.range'_append 0 n m 1
  rw [one_mul, Nat.zero_add] at hap
  rw [hap, List.range_eq_range']
  congr 1
  omega

/-- The double-horseshoe geometry is exact for up to its 32-seat cap
(16 inner + 16 outer). -/
theorem doubleHorseshoe_spec (seatCount : Nat) (h32 : seatCount ≤ 32) :
    (doubleHorseshoePositions seatCount).length = seatCount ∧
    (doubleHorseshoePositions seatCount).map SeatPosition.position = List.range seatCount ∧
    ∀ sp ∈ doubleHorseshoePositions seatCount, 0 ≤ sp.x ∧ 0 ≤ sp.y := by
  refine ⟨?_, ?_, ?_⟩
  · simp only [doubleHorseshoePositions, List.length_append, List.length_map,
      List.length_range]
    omega
  · simp only [doubleHorseshoePositions]
    exact append_positions_range _ _ _ _ _ (map_position_range fun i => rfl)
      (map_position_range_add fun i => rfl) (by omega)
  · intro sp hsp
    simp only [doubleHorseshoePositions, List.mem_append, List.mem_map,
      List.mem_range] at hsp
    rcases hsp with ⟨i, hi, rfl⟩ | ⟨i, hi, rfl⟩
    · exact ⟨ite_overlap_x_nonneg _ _ (cos_coord_nonneg 420 140 _ (by norm_num) (by norm_num)),
        max_120_nonneg _⟩
    · exact ⟨ite_overlap_x_nonneg _ _ (cos_coord_nonneg 420 240 _ (by norm_num) (by norm_num)),
        max_120_nonneg _⟩

/-- The pairs geometry: exact length, contiguous indices, nonnegative
coordinates, for every seat count. -/
theorem pairs_spec (seatCount : Nat) :
    (pairsPositions seatCount).length = seatCount ∧
    (pairsPositions seatCount).map SeatPosition.position = List.range seatCount ∧
    ∀ sp ∈ pairsPositions seatCount, 0 ≤ sp.x ∧ 0 ≤ sp.y := by
  refine ⟨by simp [pairsPositions], ?_, ?_⟩
  · simp only [pairsPositions]
    exact map_position_range fun i => rfl
  · intro sp hsp
    simp only [pairsPositions, List.mem_map, List.mem_range] at hsp
    obtain ⟨p, hp, rfl⟩ := hsp
    exact ⟨cast_mul_add_nonneg2 _ _ _ _ _ (by norm_num) (by norm_num) (by norm_num),
      cast_mul_add_nonneg _ _ _ (by norm_num) (by norm_num)⟩

/-- The groups geometry produces `4 * min(ceil(seatCount/4), 6)` seats. -/
theorem groupsPositions_length (seatCount : Nat) :
    (groupsPositions seatCount).length = 4 * min ((seatCount + 3) / 4) 6 := by
  simp only [groupsPositions, List.length_flatMap, List.map_map]
  have hconst : ((List.range (min ((seatCount + 3) / 4) groupPositionsCenters.length)).map
      fun g => (4 : Nat)).sum = 4 * min ((seatCount + 3) / 4) 6 := by
    rw [List.map_const', List.sum_replicate, smul_eq_mul, List.length_range]
    have h6 : groupPositionsCenters.length = 6 := by simp [groupPositionsCenters]
    rw [h6]
    omega
  rw [← hconst]
  refine congrArg List.sum (List.map_congr_left ?_)
  intro g hg
  simp [groupSeatOffsets]

/-- C3 counterexample:
"groups" is among the seven supported layout kinds and seatCount 5 lies in
[0, 40], yet generateLayoutPositions("groups", 5) returns 8 positions, not
5 — the groups case rounds up to whole 4-seat clusters. -/
theorem c3_counterexample :
    ("groups" ∈ (["traditional-rows", "stadium", "horseshoe", "double-horseshoe",
      "circle", "groups", "pairs"] : List String)) ∧
    (5 : Nat) ≤ 40 ∧
    (generateLayoutPositions "groups" 5).length = 8 ∧
    (generateLayoutPositions "groups" 5).length ≠ 5 := by
  have hg : generateLayoutPositions "groups" 5 = groupsPositions 5 := by
    simp [generateLayoutPositions]
  rw [hg, groupsPositions_length]
  refine ⟨by decide, by decide, by decide, by decide⟩

/-- C3 (amended): for the layout kinds traditional-rows, horseshoe, circle
and pairs at every seatCount, for stadium at seatCount ≤ 24, and for
double-horseshoe at seatCount ≤ 32, generateLayoutPositions returns exactly
seatCount positions whose position indices are exactly 0..seatCount-1, each
with non-negative x and y coordinates.  (The groups kind instead returns
4 * min(ceil(seatCount/4), 6) positions; stadium and double-horseshoe are
capped at 24 and 32 seats respectively.) -/
theorem c3_layout_geometry_amended (kind : String) (seatCount : Nat)
    (hk : kind ∈ (["traditional-rows", "horseshoe", "circle", "pairs"] : List String) ∨
      (kind = "stadium" ∧ seatCount ≤ 24) ∨
      (kind = "double-horseshoe" ∧ seatCount ≤ 32)) :
    (generateLayoutPositions kind seatCount).length = seatCount ∧
    (generateLayoutPositions kind seatCount).map SeatPosition.position =
      List.range seatCount ∧
    ∀ sp ∈ generateLayoutPositions kind seatCount, 0 ≤ sp.x ∧ 0 ≤ sp.y := by
  rcases hk with hk | ⟨hk, h24⟩ | ⟨hk, h32⟩
  · fin_cases hk
    · have h : generateLayoutPositions "traditional-rows" seatCount =
          traditionalRowsPositions seatCount := by simp [generateLayoutPositions]
      rw [h]
      exact traditionalRows_spec seatCount
    · have h : generateLayoutPositions "horseshoe" seatCount =
          horseshoePositions seatCount := by simp [generateLayoutPositions]
      rw [h]
      exact horseshoe_spec seatCount
    · have h : generateLayoutPositions "circle" seatCount =
          circlePositions seatCount := by simp [generateLayoutPositions]
      rw [h]
      exact circle_spec seatCount
    · have h : generateLayoutPositions "pairs" seatCount =
          pairsPositions seatCount := by simp [generateLayoutPositions]
      rw [h]
      exact pairs_spec seatCount
  · subst hk
    have h : generateLayoutPositions "stadium" seatCount =
        stadiumPositions seatCount := by simp [generateLayoutPositions]
    rw [h]
    exact stadiumPositions_spec seatCount h24
  · subst hk
    have h : generateLayoutPositions "double-horseshoe" seatCount =
        doubleHorseshoePositions seatCount := by simp [generateLayoutPositions]
    rw [h]
    exact doubleHorseshoe_spec seatCount h32

/-- Witness for the amended C3 at the concrete input kind = "circle",
seatCount = 12. -/
theorem c3_layout_geometry_amended_witness :
    (("circle" ∈ (["traditional-rows", "horseshoe", "circle", "pairs"] : List String) ∨
      ("circle" = "stadium" ∧ (12 : Nat) ≤ 24) ∨
      ("circle" = "double-horseshoe" ∧ (12 : Nat) ≤ 32))) ∧
    (generateLayoutPositions "circle" 12).length = 12 :=
  ⟨Or.inl (by decide),
    (c3_layout_geometry_amended "circle" 12 (Or.inl (by decide))).1⟩

/-- C9: the groups layout always returns 4 * min(ceil(seatCount/4), 6)
positions; it never exceeds 24 positions, and for 0 < seatCount ≤ 24 not a
multiple of 4 it returns strictly more than seatCount positions. -/
theorem c9_groups_layout (seatCount : Nat) :
    (generateLayoutPositions "groups" seatCount).length =
      4 * min (Nat.ceil ((seatCount : ℚ) / 4)) 6 ∧
    (generateLayoutPositions "groups" seatCount).length ≤ 24 ∧
    (0 < seatCount → seatCount ≤ 24 → ¬ (4 ∣ seatCount) →
      seatCount < (generateLayoutPositions "groups" seatCount).length) := by
  have hg : generateLayoutPositions "groups" seatCount = groupsPositions seatCount := by
    simp [generateLayoutPositions]
  rw [hg, groupsPositions_length, ceil_div_four]
  refine ⟨rfl, by omega, ?_⟩
  intro h1 h2 h3
  omega

/-- Witness for C9 at the concrete input seatCount = 10: not a multiple of
4, and the groups layout returns 12 > 10 positions. -/
theorem c9_groups_layout_witness :
    (0 : Nat) < 10 ∧ (10 : Nat) ≤ 24 ∧ ¬ (4 ∣ (10 : Nat)) ∧
    10 < (generateLayoutPositions "groups" 10).length :=
  ⟨by decide, by decide, by decide,
    (c9_groups_layout 10).2.2 (by decide) (by decide) (by decide)⟩

/-- C8: the score returned by assessSeatingEffectiveness lies in [0, 100]
for every seats array, roster, strategy string and layout kind, whatever
violations, penalties or bonuses accrue before the final clamp. -/
theorem c8_score_clamped (seats : List SeatAssignment) (students : List Student)
    (strategy : String) (layoutType : String) :
    0 ≤ (assessSeatingEffectiveness seats students strategy layoutType).1 ∧
    (assessSeatingEffectiveness seats students strategy layoutType).1 ≤ 100 :=
  ⟨le_max_left 0 _, max_le (by norm_num) (min_le_left _ _)⟩
